import Mathlib

/-!
Verification development for the jsoncons streaming-codec core: the incremental
JSON parser (json_parser.hpp), the tree decoder (json_decoder.hpp) and the CBOR
encoder (cbor_encoder.hpp), shallowly embedded as executable Lean definitions.
Characters and bytes are modelled as Nat, machine integers as Nat/Int with
explicit range conditions, and IEEE-754 doubles/floats as sign/exponent/fraction
triples with rational semantics.
-/

namespace Jsoncons

/-- Error codes of the JSON parser (json_errc). -/
inductive JsonErrc where
  | unexpectedEof
  | syntaxError
  | invalidValue
  | invalidNumber
  | leadingZero
  | extraComma
  | expectedKey
  | expectedValue
  | expectedColon
  | expectedCommaOrRbracket
  | expectedCommaOrRbrace
  | unexpectedRbracket
  | unexpectedRbrace
  | unexpectedCharacter
  | singleQuote
  | illegalControlCharacter
  | illegalCharacterInString
  | illegalComment
  | illegalEscapedCharacter
  | invalidUnicodeEscapeSequence
  | expectedCodepointSurrogatePair
  | overLongUtf8Sequence
  | unpairedHighSurrogate
  | expectedContinuationByte
  | illegalSurrogateValue
  | illegalCodepoint
  | maxNestingDepthExceeded
  | extraCharacter
  deriving DecidableEq, Repr

/-- Error codes of the CBOR encoder (cbor_errc), restricted to the encoder side. -/
inductive CborErrc where
  | invalidUtf8TextString
  | invalidDecimalFraction
  | invalidBigfloat
  | tooFewItems
  | tooManyItems
  | maxNestingDepthExceeded
  deriving DecidableEq, Repr

/-- Semantic tags attached to events (semantic_tag). -/
inductive STag where
  | none
  | undefined
  | datetime
  | epochSecond
  | epochMilli
  | epochNano
  | bigint
  | bigdec
  | bigfloat
  | base16
  | base64
  | base64url
  | uri
  | clamped
  | multiDimRowMajor
  | multiDimColumnMajor
  deriving DecidableEq, Repr

/-- Outer parser states (parse_state). -/
inductive PState where
  | root
  | start
  | accept
  | slash
  | slashSlash
  | slashStar
  | slashStarStar
  | expectCommaOrEnd
  | object
  | expectMemberNameOrEnd
  | expectMemberName
  | expectColon
  | expectValueOrEnd
  | expectValue
  | array
  | string
  | memberName
  | number
  | n
  | nu
  | nul
  | t
  | tr
  | tru
  | f
  | fa
  | fal
  | fals
  | cr
  | done
  deriving DecidableEq, Repr

/-- Inner string states (parse_string_state); the default value is text. -/
inductive SState where
  | text
  | escape
  | escapeU1
  | escapeU2
  | escapeU3
  | escapeU4
  | escapeExpectSurrogatePair1
  | escapeExpectSurrogatePair2
  | escapeU5
  | escapeU6
  | escapeU7
  | escapeU8
  deriving DecidableEq, Repr

/-- Inner number states (parse_number_state); the default value is minus. -/
inductive NState where
  | minus
  | zero
  | integer
  | fraction1
  | fraction2
  | exp1
  | exp2
  | exp3
  deriving DecidableEq, Repr

/-! IEEE-754 model.  A binary64 (binary32) value is a sign bit, a biased
exponent and a fraction field; the semantics of a finite value is a rational.
The C++ sources use the primitive operations `(float)val`, `(double)valf`,
`==` on doubles and `/` on doubles; these primitives are not repository code
and are modelled by their IEEE-754 semantics: correctly rounded conversion
(round to nearest, ties to even), exact widening, and IEEE equality. -/

/-- A binary64 bit pattern: sign, 11-bit biased exponent, 52-bit fraction. -/
structure F64 where
  sign : Bool
  biasedExp : Nat
  frac : Nat
  deriving DecidableEq, Repr

/-- A binary32 bit pattern: sign, 8-bit biased exponent, 23-bit fraction. -/
structure F32 where
  sign : Bool
  biasedExp : Nat
  frac : Nat
  deriving DecidableEq, Repr

/-- Well-formedness of a binary64 pattern: fields within their bit widths. -/
def F64.WF (d : F64) : Prop := d.biasedExp < 2048 ∧ d.frac < 2 ^ 52

instance (d : F64) : Decidable d.WF := by unfold F64.WF; infer_instance

/-- Well-formedness of a binary32 pattern: fields within their bit widths. -/
def F32.WF (f : F32) : Prop := f.biasedExp < 256 ∧ f.frac < 2 ^ 23

instance (f : F32) : Decidable f.WF := by unfold F32.WF; infer_instance

def F64.isNan (d : F64) : Bool := d.biasedExp == 2047 && d.frac != 0

def F64.isInf (d : F64) : Bool := d.biasedExp == 2047 && d.frac == 0

def F32.isNan (f : F32) : Bool := f.biasedExp == 255 && f.frac != 0

def F32.isInf (f : F32) : Bool := f.biasedExp == 255 && f.frac == 0

/-- Rational value of a finite binary64 pattern (0 for non-finite patterns). -/
def F64.val (d : F64) : ℚ :=
  if d.biasedExp = 2047 then 0
  else
    (if d.sign then (-1 : ℚ) else 1) *
      (if d.biasedExp = 0 then (d.frac : ℚ) * (2 : ℚ) ^ (-1074 : ℤ)
       else ((2 ^ 52 + d.frac : ℕ) : ℚ) * (2 : ℚ) ^ ((d.biasedExp : ℤ) - 1075))

/-- Rational value of a finite binary32 pattern (0 for non-finite patterns). -/
def F32.val (f : F32) : ℚ :=
  if f.biasedExp = 255 then 0
  else
    (if f.sign then (-1 : ℚ) else 1) *
      (if f.biasedExp = 0 then (f.frac : ℚ) * (2 : ℚ) ^ (-149 : ℤ)
       else ((2 ^ 23 + f.frac : ℕ) : ℚ) * (2 : ℚ) ^ ((f.biasedExp : ℤ) - 150))

/-- Magnitude of a finite binary64 pattern as an integer mantissa and a power
of two: the magnitude of the value is m times 2 to the e. -/
def F64.mantExp (d : F64) : Nat × Int :=
  if d.biasedExp = 0 then (d.frac, -1074) else (2 ^ 52 + d.frac, (d.biasedExp : Int) - 1075)

/-- IEEE equality on binary64 values: false when either side is NaN,
sign-aware on infinities, value equality (hence plus zero equals minus zero)
on finite values — decided by cross-scaling the signed dyadic mantissas. -/
def f64Eq (a b : F64) : Bool :=
  if a.isNan || b.isNan then false
  else if a.isInf || b.isInf then a.isInf && b.isInf && a.sign == b.sign
  else
    let sa : Int := cond a.sign (-(a.mantExp.1 : Int)) (a.mantExp.1 : Int)
    let sb : Int := cond b.sign (-(b.mantExp.1 : Int)) (b.mantExp.1 : Int)
    let m := min a.mantExp.2 b.mantExp.2
    sa * 2 ^ (a.mantExp.2 - m).toNat == sb * 2 ^ (b.mantExp.2 - m).toNat

def F64.zero (s : Bool) : F64 := ⟨s, 0, 0⟩

def F64.infty (s : Bool) : F64 := ⟨s, 2047, 0⟩

def F64.nan : F64 := ⟨false, 2047, 2 ^ 51⟩

def F32.zero (s : Bool) : F32 := ⟨s, 0, 0⟩

def F32.infty (s : Bool) : F32 := ⟨s, 255, 0⟩

def F32.nan : F32 := ⟨false, 255, 2 ^ 22⟩

/-- Floor of the base-2 logarithm of the positive rational a / b. -/
def ilog2Rat (a b : Nat) : Int :=
  let e0 : Int := (Nat.size a : Int) - (Nat.size b : Int)
  let ge : Bool :=
    if 0 ≤ e0 then decide (b * 2 ^ e0.toNat ≤ a) else decide (b ≤ a * 2 ^ (-e0).toNat)
  if ge then e0 else e0 - 1

/-- Nearest integer to num / den, ties to even (num, den : Nat, den positive). -/
def roundHalfEvenDiv (num den : Nat) : Nat :=
  let q := num / den
  let r := num % den
  if 2 * r < den then q
  else if den < 2 * r then q + 1
  else if q % 2 = 0 then q else q + 1

/-- Round the positive rational a / b to a floating-point magnitude n times 2
to the g with n below 2 to the prec and g at least eminSub, round to nearest
ties to even; none signals overflow (result at least 2 to the emaxP). -/
def roundPosRat (prec : Nat) (eminSub emaxP : Int) (a b : Nat) : Option (Nat × Int) :=
  let e := ilog2Rat a b
  let g := max eminSub (e - ((prec : Int) - 1))
  let num := a * 2 ^ (-g).toNat
  let den := b * 2 ^ g.toNat
  let n0 := roundHalfEvenDiv num den
  let n := if n0 = 2 ^ prec then 2 ^ (prec - 1) else n0
  let g := if n0 = 2 ^ prec then g + 1 else g
  let ovf : Bool := if g ≤ emaxP then decide (2 ^ (emaxP - g).toNat ≤ n) else true
  if ovf then none else some (n, g)

/-- Pack a rounded binary32 magnitude: n = 0 gives a zero, n at least 2 to the
23 a normal number, otherwise a subnormal (whose exponent is the minimal one). -/
def pack32 (s : Bool) (n : Nat) (g : Int) : F32 :=
  if n = 0 then F32.zero s
  else if 2 ^ 23 ≤ n then ⟨s, (g + 150).toNat, n - 2 ^ 23⟩
  else ⟨s, 0, n⟩

/-- Pack a rounded binary64 magnitude, as pack32. -/
def pack64 (s : Bool) (n : Nat) (g : Int) : F64 :=
  if n = 0 then F64.zero s
  else if 2 ^ 52 ≤ n then ⟨s, (g + 1075).toNat, n - 2 ^ 52⟩
  else ⟨s, 0, n⟩

/-- Pack a positive magnitude n times 2 to the g (n below 2 to the 53) into a
normal binary64 pattern, normalising the mantissa to 53 bits. -/
def pack64Norm (s : Bool) (n : Nat) (g : Int) : F64 :=
  if n = 0 then F64.zero s
  else
    let sh := 52 - (Nat.size n - 1)
    ⟨s, (g - sh + 1075).toNat, n * 2 ^ sh - 2 ^ 52⟩

/-- The C++ cast from double to float: IEEE-754 correctly rounded conversion
of a binary64 value to binary32 (round to nearest, ties to even), quietly
mapping NaN to NaN and keeping infinities and signed zeros. -/
def F64.castToF32 (d : F64) : F32 :=
  if d.biasedExp = 2047 then
    if d.frac = 0 then F32.infty d.sign else F32.nan
  else
    let me := d.mantExp
    if me.1 = 0 then F32.zero d.sign
    else
      let a := me.1 * 2 ^ me.2.toNat
      let b := 2 ^ (-me.2).toNat
      match roundPosRat 24 (-149) 128 a b with
      | Option.none => F32.infty d.sign
      | Option.some ng => pack32 d.sign ng.1 ng.2

/-- The C++ cast from float to double: exact IEEE-754 widening. -/
def F32.widen (f : F32) : F64 :=
  if f.biasedExp = 255 then
    if f.frac = 0 then F64.infty f.sign else F64.nan
  else if f.biasedExp = 0 then pack64Norm f.sign f.frac (-149)
  else pack64Norm f.sign (2 ^ 23 + f.frac) ((f.biasedExp : Int) - 150)

/-- Big-endian byte serialisation of n in exactly k bytes (binary::native_to_big). -/
def bytesBE (k n : Nat) : List Nat :=
  (List.range k).map (fun i => n / 2 ^ (8 * (k - 1 - i)) % 256)

/-- Big-endian bytes of the binary32 bit pattern (native_to_big of a float). -/
def F32.bytes (f : F32) : List Nat :=
  bytesBE 4 ((cond f.sign 1 0) * 2 ^ 31 + f.biasedExp * 2 ^ 23 + f.frac)

/-- Big-endian bytes of the binary64 bit pattern (native_to_big of a double). -/
def F64.bytes (d : F64) : List Nat :=
  bytesBE 8 ((cond d.sign 1 0) * 2 ^ 63 + d.biasedExp * 2 ^ 52 + d.frac)

/-- IEEE division of a finite double by a positive integer constant (the C++
expression val divided by a constant): correctly rounded. -/
def F64.divNat (d : F64) (k : Nat) : F64 :=
  if d.biasedExp = 2047 then d
  else
    let me := d.mantExp
    if me.1 = 0 then d
    else
      let a := me.1 * 2 ^ me.2.toNat
      let b := k * 2 ^ (-me.2).toNat
      match roundPosRat 53 (-1074) 1024 a b with
      | Option.none => F64.infty d.sign
      | Option.some ng => pack64 d.sign ng.1 ng.2

/-- Conversion of an Int in the int64 range to double (static_cast of int64 to
double): correctly rounded; exact below 2 to the 53. -/
def intToF64 (v : Int) : F64 :=
  if v = 0 then F64.zero false
  else
    match roundPosRat 53 (-1074) 1024 v.natAbs 1 with
    | Option.none => F64.infty (v < 0)
    | Option.some ng => pack64 (v < 0) ng.1 ng.2

/-- Events emitted by a producer to a basic_json_visitor, with their tags. -/
inductive Event where
  | beginObject (tag : STag)
  | endObject
  | beginArray (tag : STag)
  | endArray
  | key (s : List Nat)
  | stringValue (s : List Nat) (tag : STag)
  | int64Value (v : Int) (tag : STag)
  | uint64Value (v : Nat) (tag : STag)
  | doubleValue (d : F64) (tag : STag)
  | boolValue (b : Bool) (tag : STag)
  | nullValue (tag : STag)
  | flush
  deriving DecidableEq, Repr

/-! The JSON parser (basic_json_parser in json_parser.hpp), instantiated at
char input with the default options and the default error handler.  Bytes are
Nat; the visitor is the event-collecting one (events field) and the per-call
std::error_code is the ec field; neither is a C++ parser member.  The input
window given by update (begin_input, input_ptr, end_input) is the input list
together with the consumed-prefix index ip. -/

/-- Decode options of the parser (basic_json_decode_options), restricted to the
fields the parser reads. -/
structure JsonOptions where
  maxNestingDepth : Nat := 1024
  allowTrailingComma : Bool := false
  allowComments : Bool := false
  losslessNumber : Bool := false
  losslessBignum : Bool := false
  deriving DecidableEq, Repr

/-- Modelled from the spec: the default error handler (default_json_parsing,
not under src/) permits recovery only for illegal_comment — that is how
allow_comments works — and declines recovery for every other error, which per
the spec propagation rule stores the code and clears more. -/
def defaultErrHandler (e : JsonErrc) : Bool := e matches JsonErrc.illegalComment

/-- State of basic_json_parser: one field per C++ data member (the allocator
aside), plus the collected events and the error code of the current call. -/
structure Parser where
  maxNestingDepth : Nat
  allowTrailingComma : Bool
  allowComments : Bool
  losslessNumber : Bool
  losslessBignum : Bool
  level : Nat
  cp : Nat
  cp2 : Nat
  line : Nat
  pos : Nat
  markPos : Nat
  beginPos : Nat
  input : List Nat
  ip : Nat
  state : PState
  stringState : SState
  numberState : NState
  more : Bool
  done : Bool
  cursorMode : Bool
  markLevel : Nat
  buffer : List Nat
  stateStack : List PState
  stringDoubleMap : List (List Nat × F64)
  events : List Event
  ec : Option JsonErrc
  deriving DecidableEq, Repr

/-- The parser constructor: copies the options and pushes the root state. -/
def parserMk (opts : JsonOptions) : Parser where
  maxNestingDepth := opts.maxNestingDepth
  allowTrailingComma := opts.allowTrailingComma
  allowComments := opts.allowComments
  losslessNumber := opts.losslessNumber
  losslessBignum := opts.losslessBignum
  level := 0
  cp := 0
  cp2 := 0
  line := 1
  pos := 0
  markPos := 0
  beginPos := 0
  input := []
  ip := 0
  state := PState.start
  stringState := SState.text
  numberState := NState.minus
  more := true
  done := false
  cursorMode := false
  markLevel := 0
  buffer := []
  stateStack := [PState.root]
  stringDoubleMap := []
  events := []
  ec := Option.none

/-- A parser over the default options (the nan/inf string mappings disabled). -/
def parserNew : Parser := parserMk {}

def Parser.curChar (p : Parser) : Nat := p.input.getD p.ip 0

/-- Record a visitor event. -/
def Parser.emit (p : Parser) (e : Event) : Parser := { p with events := p.events ++ [e] }

/-- Store an error after the default handler declined recovery: the code is
set and more is cleared. -/
def Parser.fail (p : Parser) (e : JsonErrc) : Parser := { p with ec := some e, more := false }

/-- push_state: the back of the state stack is the end of the list. -/
def Parser.pushState (p : Parser) (s : PState) : Parser :=
  { p with stateStack := p.stateStack ++ [s] }

/-- parent: the back of the state stack (root when empty, which the C++
asserts cannot happen). -/
def Parser.parent (p : Parser) : PState := p.stateStack.getLastD PState.root

/-- pop_state: returns the back of the stack and removes it. -/
def Parser.popState (p : Parser) : PState × Parser :=
  (p.stateStack.getLastD PState.root, { p with stateStack := p.stateStack.dropLast })

def isDigitChar (c : Nat) : Bool := decide (48 ≤ c ∧ c ≤ 57)

def isNonzeroDigitChar (c : Nat) : Bool := decide (49 ≤ c ∧ c ≤ 57)

def isExpChar (c : Nat) : Bool := c == 101 || c == 69

/-- The control bytes of JSONCONS_ILLEGAL_CONTROL_CHARACTER: all bytes below
0x20 except tab, newline and carriage return. -/
def isIllegalControl (c : Nat) : Bool := decide (c < 32 ∧ c ≠ 9 ∧ c ≠ 10 ∧ c ≠ 13)

/-- Modelled from the spec: unicode_traits::is_high_surrogate. -/
def isHighSurrogate (cp : Nat) : Bool := decide (0xD800 ≤ cp ∧ cp ≤ 0xDBFF)

/-- The input characters from index a (inclusive) to b (exclusive), as in the
C++ buffer_.append(hdr, cur). -/
def Parser.sliceIn (p : Parser) (a b : Nat) : List Nat := (p.input.drop a).take (b - a)

/-- reset: re-initialises the resumable outer state — state stack, outer
state, more/done, line, position, mark position and level (json_parser.hpp
lines 474 to 485).  It does not touch cp, cp2, begin_position, the input
pointers or the scratch buffer; reinitialize does. -/
def Parser.reset (p : Parser) : Parser :=
  { p with stateStack := [PState.root], state := PState.start, more := true, done := false,
           line := 1, pos := 0, markPos := 0, level := 0 }

/-- reinitialize: reset plus clearing cp, cp2, begin_position, the input
pointers and the scratch buffer (json_parser.hpp lines 462 to 472). -/
def Parser.reinitialize (p : Parser) : Parser :=
  let p := p.reset
  { p with cp := 0, cp2 := 0, beginPos := 0, input := [], ip := 0, buffer := [] }

/-- update: installs a fresh input window. -/
def Parser.update (p : Parser) (data : List Nat) : Parser :=
  { p with input := data, ip := 0 }

def Parser.restart (p : Parser) : Parser := { p with more := true }

/-- skip_space: consumes blanks and tabs, counts lines at newlines and
carriage returns, and parks in the cr state when a chunk ends right after a
carriage return. -/
def skipSpaceGo : Nat → Parser → Parser
  | 0, p => p
  | fuel+1, p =>
    if p.ip < p.input.length then
      let c := p.curChar
      if c = 32 ∨ c = 9 then skipSpaceGo fuel { p with ip := p.ip + 1, pos := p.pos + 1 }
      else if c = 10 then
        let p := { p with ip := p.ip + 1, line := p.line + 1, pos := p.pos + 1 }
        skipSpaceGo fuel { p with markPos := p.pos }
      else if c = 13 then
        let p := { p with ip := p.ip + 1, pos := p.pos + 1 }
        if p.ip < p.input.length then
          let p := { p with line := p.line + 1 }
          let p := if p.curChar = 10 then { p with ip := p.ip + 1, pos := p.pos + 1 } else p
          skipSpaceGo fuel { p with markPos := p.pos }
        else
          let p := p.pushState p.state
          { p with state := PState.cr }
      else p
    else p

def Parser.skipSpace (p : Parser) : Parser := skipSpaceGo (p.input.length + 1) p

/-- begin_object of the parser: bumps the level, raises
max_nesting_depth_exceeded beyond the limit, else pushes the object frame,
emits the begin_object event and expects a member name or the end. -/
def Parser.beginObjectV (p : Parser) : Parser :=
  let p := { p with level := p.level + 1 }
  if p.maxNestingDepth < p.level then
    -- the default handler declines recovery of max_nesting_depth_exceeded
    p.fail JsonErrc.maxNestingDepthExceeded
  else
    let p := p.pushState PState.object
    let p := { p with state := PState.expectMemberNameOrEnd }
    let p := p.emit (Event.beginObject STag.none)
    { p with more := !p.cursorMode }

/-- end_object of the parser. -/
def Parser.endObjectV (p : Parser) : Parser :=
  if p.level < 1 then p.fail JsonErrc.unexpectedRbrace
  else
    let (st, p) := p.popState
    let p := { p with state := st }
    if st = PState.object then
      let p := p.emit Event.endObject
      let p := { p with more := !p.cursorMode }
      let p := if p.level = p.markLevel then { p with more := false } else p
      let p := { p with level := p.level - 1 }
      if p.level = 0 then { p with state := PState.accept }
      else { p with state := PState.expectCommaOrEnd }
    else if st = PState.array then p.fail JsonErrc.expectedCommaOrRbracket
    else p.fail JsonErrc.unexpectedRbrace

/-- begin_array of the parser. -/
def Parser.beginArrayV (p : Parser) : Parser :=
  let p := { p with level := p.level + 1 }
  if p.maxNestingDepth < p.level then
    p.fail JsonErrc.maxNestingDepthExceeded
  else
    let p := p.pushState PState.array
    let p := { p with state := PState.expectValueOrEnd }
    let p := p.emit (Event.beginArray STag.none)
    { p with more := !p.cursorMode }

/-- end_array of the parser. -/
def Parser.endArrayV (p : Parser) : Parser :=
  if p.level < 1 then p.fail JsonErrc.unexpectedRbracket
  else
    let (st, p) := p.popState
    let p := { p with state := st }
    if st = PState.array then
      let p := p.emit Event.endArray
      let p := { p with more := !p.cursorMode }
      let p := if p.level = p.markLevel then { p with more := false } else p
      let p := { p with level := p.level - 1 }
      if p.level = 0 then { p with state := PState.accept }
      else { p with state := PState.expectCommaOrEnd }
    else if st = PState.object then p.fail JsonErrc.expectedCommaOrRbrace
    else p.fail JsonErrc.unexpectedRbracket

/-- after_value: where to go once a scalar value event was emitted. -/
def Parser.afterValue (p : Parser) : Parser :=
  match p.parent with
  | PState.array => { p with state := PState.expectCommaOrEnd }
  | PState.object => { p with state := PState.expectCommaOrEnd }
  | PState.root => { p with state := PState.accept }
  | _ => p.fail JsonErrc.syntaxError

/-- begin_member_or_element: state after a comma. -/
def Parser.beginMemberOrElement (p : Parser) : Parser :=
  match p.parent with
  | PState.object => { p with state := PState.expectMemberName }
  | PState.array => { p with state := PState.expectValue }
  | PState.root => p
  | _ => p.fail JsonErrc.syntaxError

/-! Decimal conversion utilities (jsoncons/utility/read_number.hpp, not under
src/), modelled from the spec. -/

def decDigitsVal (s : List Nat) : Nat := s.foldl (fun acc c => acc * 10 + (c - 48)) 0

/-- Modelled from the spec: dec_to_integer into uint64_t — unsigned decimal
conversion of a digit string, failing on range overflow. -/
def decToUint64 (s : List Nat) : Option Nat :=
  if s ≠ [] ∧ s.all isDigitChar = true ∧ decDigitsVal s < 2 ^ 64 then some (decDigitsVal s)
  else none

/-- Modelled from the spec: dec_to_integer into int64_t — signed decimal
conversion of an optionally minus-signed digit string, failing on range
overflow. -/
def decToInt64 (s : List Nat) : Option Int :=
  match s with
  | 45 :: rest =>
    if rest ≠ [] ∧ rest.all isDigitChar = true ∧ decDigitsVal rest ≤ 2 ^ 63 then
      some (-(decDigitsVal rest : Int))
    else none
  | _ =>
    if s ≠ [] ∧ s.all isDigitChar = true ∧ decDigitsVal s ≤ 2 ^ 63 - 1 then
      some ((decDigitsVal s : Int))
    else none

/-- Decompose a JSON number text into sign, integer mantissa and a power of
ten: the value is the signed mantissa times 10 to the returned exponent. -/
def decimalToParts (s : List Nat) : Option (Bool × Nat × Int) :=
  let (sgn, s) := match s with
    | 45 :: rest => (true, rest)
    | _ => (false, s)
  let intPart := s.takeWhile isDigitChar
  let s := s.dropWhile isDigitChar
  if intPart = [] then Option.none
  else
    let (fracPart, s) := match s with
      | 46 :: rest => (rest.takeWhile isDigitChar, rest.dropWhile isDigitChar)
      | _ => ([], s)
    match s with
    | [] => some (sgn, decDigitsVal (intPart ++ fracPart), -(fracPart.length : Int))
    | e :: rest =>
      if isExpChar e then
        let (esgn, rest) := match rest with
          | 45 :: r => (true, r)
          | 43 :: r => (false, r)
          | _ => (false, rest)
        if rest ≠ [] ∧ rest.all isDigitChar = true then
          let ev : Int := if esgn then -(decDigitsVal rest : Int) else (decDigitsVal rest : Int)
          some (sgn, decDigitsVal (intPart ++ fracPart), ev - (fracPart.length : Int))
        else Option.none
      else Option.none

inductive DtodResult where
  | ok (d : F64)
  | outOfRange (d : F64)
  | bad
  deriving DecidableEq, Repr

/-- Modelled from the spec: decstr_to_double — correctly rounded decimal text
to binary64 conversion; overflow reports result_out_of_range carrying the
rounded (infinite) value. -/
def decstrToDouble (s : List Nat) : DtodResult :=
  match decimalToParts s with
  | Option.none => DtodResult.bad
  | some (sgn, m, sc) =>
    if m = 0 then DtodResult.ok (F64.zero sgn)
    else
      let a := m * 10 ^ sc.toNat
      let b := 10 ^ (-sc).toNat
      match roundPosRat 53 (-1074) 1024 a b with
      | Option.none => DtodResult.outOfRange (F64.infty sgn)
      | Option.some ng => DtodResult.ok (pack64 sgn ng.1 ng.2)

/-- end_negative_value: signed conversion; overflow falls back to a bigint
string event. -/
def Parser.endNegativeValue (p : Parser) : Parser :=
  match decToInt64 p.buffer with
  | some v =>
    let p := p.emit (Event.int64Value v STag.none)
    let p := { p with more := !p.cursorMode }
    p.afterValue
  | Option.none =>
    let p := p.emit (Event.stringValue p.buffer STag.bigint)
    let p := { p with more := !p.cursorMode }
    p.afterValue

/-- end_positive_value: unsigned conversion; overflow falls back to a bigint
string event. -/
def Parser.endPositiveValue (p : Parser) : Parser :=
  match decToUint64 p.buffer with
  | some v =>
    let p := p.emit (Event.uint64Value v STag.none)
    let p := { p with more := !p.cursorMode }
    p.afterValue
  | Option.none =>
    let p := p.emit (Event.stringValue p.buffer STag.bigint)
    let p := { p with more := !p.cursorMode }
    p.afterValue

/-- end_integer_value: dispatch on the sign character of the scratch buffer. -/
def Parser.endIntegerValue (p : Parser) : Parser :=
  if p.buffer.headD 0 = 45 then p.endNegativeValue else p.endPositiveValue

/-- end_fraction_value: lossless_number gives a bigdec string, else a
correctly rounded double; out-of-range gives a bigdec string under
lossless_bignum and the infinite double otherwise. -/
def Parser.endFractionValue (p : Parser) : Parser :=
  if p.losslessNumber then
    let p := p.emit (Event.stringValue p.buffer STag.bigdec)
    let p := { p with more := !p.cursorMode }
    p.afterValue
  else
    match decstrToDouble p.buffer with
    | DtodResult.ok d =>
      let p := p.emit (Event.doubleValue d STag.none)
      let p := { p with more := !p.cursorMode }
      p.afterValue
    | DtodResult.outOfRange d =>
      if p.losslessBignum then
        let p := p.emit (Event.stringValue p.buffer STag.bigdec)
        let p := { p with more := !p.cursorMode }
        p.afterValue
      else
        let p := p.emit (Event.doubleValue d STag.none)
        let p := { p with more := !p.cursorMode }
        p.afterValue
    | DtodResult.bad => p.fail JsonErrc.invalidNumber

/-- parse_number: the labelled jump machine over the inner number states.
Each step either consumes a character and jumps to the next label, or exits —
appending the consumed span to the scratch buffer, advancing position and the
input index, and on buffer exhaustion recording the label to resume at.  The
zero label records integer, exactly as json_parser.hpp line 1743 does. -/
def parseNumberGo : Nat → NState → Parser → Nat → Nat → Parser
  | 0, _, p, _, _ => p
  | fuel+1, NState.minus, p, hdr, cur =>
    if p.input.length ≤ cur then
      { p with numberState := NState.minus, buffer := p.buffer ++ p.sliceIn hdr cur,
               pos := p.pos + (cur - hdr), ip := cur }
    else
      let c := p.input.getD cur 0
      if isNonzeroDigitChar c then parseNumberGo fuel NState.integer p hdr (cur+1)
      else if c = 48 then parseNumberGo fuel NState.zero p hdr (cur+1)
      else
        let p := p.fail JsonErrc.invalidNumber
        { p with pos := p.pos + (cur - hdr), ip := cur }
  | fuel+1, NState.zero, p, hdr, cur =>
    if p.input.length ≤ cur then
      -- source line 1743: the state saved at the zero label is integer
      { p with numberState := NState.integer, buffer := p.buffer ++ p.sliceIn hdr cur,
               pos := p.pos + (cur - hdr), ip := cur }
    else
      let c := p.input.getD cur 0
      if c = 46 then parseNumberGo fuel NState.fraction1 p hdr (cur+1)
      else if isExpChar c then parseNumberGo fuel NState.exp1 p hdr (cur+1)
      else if isDigitChar c then
        let p := p.fail JsonErrc.leadingZero
        let p := { p with numberState := NState.zero }
        { p with pos := p.pos + (cur - hdr), ip := cur }
      else
        let p := { p with buffer := p.buffer ++ p.sliceIn hdr cur,
                          pos := p.pos + (cur - hdr), ip := cur }
        p.endIntegerValue
  | fuel+1, NState.integer, p, hdr, cur =>
    if p.input.length ≤ cur then
      { p with numberState := NState.integer, buffer := p.buffer ++ p.sliceIn hdr cur,
               pos := p.pos + (cur - hdr), ip := cur }
    else
      let c := p.input.getD cur 0
      if isDigitChar c then parseNumberGo fuel NState.integer p hdr (cur+1)
      else if c = 46 then parseNumberGo fuel NState.fraction1 p hdr (cur+1)
      else if isExpChar c then parseNumberGo fuel NState.exp1 p hdr (cur+1)
      else
        let p := { p with buffer := p.buffer ++ p.sliceIn hdr cur,
                          pos := p.pos + (cur - hdr), ip := cur }
        p.endIntegerValue
  | fuel+1, NState.fraction1, p, hdr, cur =>
    if p.input.length ≤ cur then
      { p with numberState := NState.fraction1, buffer := p.buffer ++ p.sliceIn hdr cur,
               pos := p.pos + (cur - hdr), ip := cur }
    else
      let c := p.input.getD cur 0
      if isDigitChar c then parseNumberGo fuel NState.fraction2 p hdr (cur+1)
      else
        let p := p.fail JsonErrc.invalidNumber
        let p := { p with numberState := NState.fraction1 }
        { p with pos := p.pos + (cur - hdr), ip := cur }
  | fuel+1, NState.fraction2, p, hdr, cur =>
    if p.input.length ≤ cur then
      { p with numberState := NState.fraction2, buffer := p.buffer ++ p.sliceIn hdr cur,
               pos := p.pos + (cur - hdr), ip := cur }
    else
      let c := p.input.getD cur 0
      if isDigitChar c then parseNumberGo fuel NState.fraction2 p hdr (cur+1)
      else if isExpChar c then parseNumberGo fuel NState.exp1 p hdr (cur+1)
      else
        let p := { p with buffer := p.buffer ++ p.sliceIn hdr cur,
                          pos := p.pos + (cur - hdr), ip := cur }
        p.endFractionValue
  | fuel+1, NState.exp1, p, hdr, cur =>
    if p.input.length ≤ cur then
      { p with numberState := NState.exp1, buffer := p.buffer ++ p.sliceIn hdr cur,
               pos := p.pos + (cur - hdr), ip := cur }
    else
      let c := p.input.getD cur 0
      if c = 45 then parseNumberGo fuel NState.exp2 p hdr (cur+1)
      else if isDigitChar c then parseNumberGo fuel NState.exp3 p hdr (cur+1)
      else if c = 43 then parseNumberGo fuel NState.exp2 p hdr (cur+1)
      else
        let p := p.fail JsonErrc.invalidNumber
        { p with pos := p.pos + (cur - hdr), ip := cur }
  | fuel+1, NState.exp2, p, hdr, cur =>
    if p.input.length ≤ cur then
      { p with numberState := NState.exp2, buffer := p.buffer ++ p.sliceIn hdr cur,
               pos := p.pos + (cur - hdr), ip := cur }
    else
      let c := p.input.getD cur 0
      if isDigitChar c then parseNumberGo fuel NState.exp3 p hdr (cur+1)
      else
        let p := p.fail JsonErrc.invalidNumber
        { p with pos := p.pos + (cur - hdr), ip := cur }
  | fuel+1, NState.exp3, p, hdr, cur =>
    if p.input.length ≤ cur then
      { p with numberState := NState.exp3, buffer := p.buffer ++ p.sliceIn hdr cur,
               pos := p.pos + (cur - hdr), ip := cur }
    else
      let c := p.input.getD cur 0
      if isDigitChar c then parseNumberGo fuel NState.exp3 p hdr (cur+1)
      else
        let p := { p with buffer := p.buffer ++ p.sliceIn hdr cur,
                          pos := p.pos + (cur - hdr), ip := cur }
        p.endFractionValue

/-- parse_number entry: resumes at the saved inner state with the current
input index as both span header and cursor. -/
def Parser.parseNumber (p : Parser) : Parser :=
  parseNumberGo (p.input.length + 1) p.numberState p p.ip p.ip

/-! UTF-8 utilities (jsoncons/utility/unicode_traits.hpp, not under src/),
modelled from the spec. -/

/-- Conversion errors of unicode_traits relevant to string validation. -/
inductive ConvErrc where
  | overLongUtf8Sequence
  | expectedContinuationByte
  | illegalSurrogateValue
  | illegalCodepoint
  | unpairedHighSurrogate
  deriving DecidableEq, Repr

/-- Modelled from the spec: unicode_traits::convert of a single codepoint
appends its UTF-8 encoding; conversion stops (appending nothing) on a
surrogate or out-of-range codepoint, and the parser ignores that result. -/
def utf8Encode (cp : Nat) : List Nat :=
  if cp < 0x80 then [cp]
  else if cp < 0x800 then [0xC0 + cp / 64, 0x80 + cp % 64]
  else if cp < 0x10000 then
    if 0xD800 ≤ cp ∧ cp ≤ 0xDFFF then []
    else [0xE0 + cp / 4096, 0x80 + cp / 64 % 64, 0x80 + cp % 64]
  else if cp < 0x110000 then
    [0xF0 + cp / 262144, 0x80 + cp / 4096 % 64, 0x80 + cp / 64 % 64, 0x80 + cp % 64]
  else []

def isContByte (b : Nat) : Bool := decide (0x80 ≤ b ∧ b ≤ 0xBF)

/-- Modelled from the spec: unicode_traits::validate over UTF-8 bytes;
returns none when valid, else the conversion error with the byte index where
it occurred (truncated sequences report a missing continuation byte). -/
def utf8ValidateGo : Nat → List Nat → Nat → Option (ConvErrc × Nat)
  | 0, _, _ => Option.none
  | _+1, [], _ => Option.none
  | fuel+1, b :: rest, i =>
    if b ≤ 0x7F then utf8ValidateGo fuel rest (i+1)
    else if b ≤ 0xBF then some (ConvErrc.expectedContinuationByte, i)
    else if b ≤ 0xC1 then some (ConvErrc.overLongUtf8Sequence, i)
    else if b ≤ 0xDF then
      match rest with
      | c1 :: rest2 =>
        if isContByte c1 then utf8ValidateGo fuel rest2 (i+2)
        else some (ConvErrc.expectedContinuationByte, i+1)
      | [] => some (ConvErrc.expectedContinuationByte, i+1)
    else if b ≤ 0xEF then
      match rest with
      | c1 :: c2 :: rest2 =>
        if b = 0xE0 ∧ ¬ (0xA0 ≤ c1 ∧ c1 ≤ 0xBF) then
          if isContByte c1 then some (ConvErrc.overLongUtf8Sequence, i+1)
          else some (ConvErrc.expectedContinuationByte, i+1)
        else if b = 0xED ∧ ¬ (0x80 ≤ c1 ∧ c1 ≤ 0x9F) then
          if isContByte c1 then some (ConvErrc.illegalSurrogateValue, i+1)
          else some (ConvErrc.expectedContinuationByte, i+1)
        else if ¬ isContByte c1 then some (ConvErrc.expectedContinuationByte, i+1)
        else if ¬ isContByte c2 then some (ConvErrc.expectedContinuationByte, i+2)
        else utf8ValidateGo fuel rest2 (i+3)
      | _ => some (ConvErrc.expectedContinuationByte, i + 1 + rest.length)
    else if b ≤ 0xF4 then
      match rest with
      | c1 :: c2 :: c3 :: rest2 =>
        if b = 0xF0 ∧ ¬ (0x90 ≤ c1 ∧ c1 ≤ 0xBF) then
          if isContByte c1 then some (ConvErrc.overLongUtf8Sequence, i+1)
          else some (ConvErrc.expectedContinuationByte, i+1)
        else if b = 0xF4 ∧ ¬ (0x80 ≤ c1 ∧ c1 ≤ 0x8F) then
          if isContByte c1 then some (ConvErrc.illegalCodepoint, i+1)
          else some (ConvErrc.expectedContinuationByte, i+1)
        else if ¬ isContByte c1 then some (ConvErrc.expectedContinuationByte, i+1)
        else if ¬ isContByte c2 then some (ConvErrc.expectedContinuationByte, i+2)
        else if ¬ isContByte c3 then some (ConvErrc.expectedContinuationByte, i+3)
        else utf8ValidateGo fuel rest2 (i+4)
      | _ => some (ConvErrc.expectedContinuationByte, i + 1 + rest.length)
    else some (ConvErrc.illegalCodepoint, i)

def utf8Validate (s : List Nat) : Option (ConvErrc × Nat) := utf8ValidateGo s.length s 0

/-- translate_conv_errc: maps a UTF-8 validation error to the parser error
code; the default handler declines recovery for all of them. -/
def Parser.translateConvErrc (p : Parser) (e : ConvErrc) : Parser :=
  match e with
  | ConvErrc.overLongUtf8Sequence => p.fail JsonErrc.overLongUtf8Sequence
  | ConvErrc.unpairedHighSurrogate => p.fail JsonErrc.unpairedHighSurrogate
  | ConvErrc.expectedContinuationByte => p.fail JsonErrc.expectedContinuationByte
  | ConvErrc.illegalSurrogateValue => p.fail JsonErrc.illegalSurrogateValue
  | ConvErrc.illegalCodepoint => p.fail JsonErrc.illegalCodepoint

def lookupStringDouble : List (List Nat × F64) → List Nat → Option F64
  | [], _ => Option.none
  | (k, v) :: rest, s => if k = s then some v else lookupStringDouble rest s

/-- end_string_value: validates the span as UTF-8, then either emits a key
(under member_name), or a string value — rerouted to a double by the
configured string-to-double map — and moves to the following state. -/
def Parser.endStringValue (p : Parser) (s : List Nat) : Parser :=
  match utf8Validate s with
  | some ei =>
    let p := p.translateConvErrc ei.1
    { p with pos := p.pos + ei.2 }
  | Option.none =>
    match p.parent with
    | PState.memberName =>
      let p := p.emit (Event.key s)
      let p := { p with more := !p.cursorMode }
      let (_, p) := p.popState
      { p with state := PState.expectColon }
    | PState.object =>
      match lookupStringDouble p.stringDoubleMap s with
      | some d =>
        let p := p.emit (Event.doubleValue d STag.none)
        let p := { p with more := !p.cursorMode }
        { p with state := PState.expectCommaOrEnd }
      | Option.none =>
        let p := p.emit (Event.stringValue s STag.none)
        let p := { p with more := !p.cursorMode }
        { p with state := PState.expectCommaOrEnd }
    | PState.array =>
      match lookupStringDouble p.stringDoubleMap s with
      | some d =>
        let p := p.emit (Event.doubleValue d STag.none)
        let p := { p with more := !p.cursorMode }
        { p with state := PState.expectCommaOrEnd }
      | Option.none =>
        let p := p.emit (Event.stringValue s STag.none)
        let p := { p with more := !p.cursorMode }
        { p with state := PState.expectCommaOrEnd }
    | PState.root =>
      match lookupStringDouble p.stringDoubleMap s with
      | some d =>
        let p := p.emit (Event.doubleValue d STag.none)
        let p := { p with more := !p.cursorMode }
        { p with state := PState.accept }
      | Option.none =>
        let p := p.emit (Event.stringValue s STag.none)
        let p := { p with more := !p.cursorMode }
        { p with state := PState.accept }
    | _ => p.fail JsonErrc.syntaxError

/-- append_to_codepoint: cp times 16 plus the hex digit; a non-hex character
raises invalid_unicode_escape_sequence (the default handler declines), with
the multiplied cp returned as in the source. -/
def Parser.appendToCodepoint (p : Parser) (cp c : Nat) : Parser × Nat :=
  let cp := cp * 16
  if 48 ≤ c ∧ c ≤ 57 then (p, cp + (c - 48))
  else if 97 ≤ c ∧ c ≤ 102 then (p, cp + (c - 97 + 10))
  else if 65 ≤ c ∧ c ≤ 70 then (p, cp + (c - 65 + 10))
  else (p.fail JsonErrc.invalidUnicodeEscapeSequence, cp)

/-- parse_string: the labelled jump machine over the inner string states.
The parameters cur and sb are the input cursor and the start of the pending
zero-copy span; on buffer exhaustion the current label is recorded in
string_state for resumption.  The escape_u8 label combines the two escapes as
0x10000 plus the low 10 bits of each, without any check that the second
codepoint lies in the low-surrogate range. -/
def parseStringGo : Nat → SState → Parser → Nat → Nat → Parser
  | 0, _, p, _, _ => p
  | fuel+1, SState.text, p, cur, sb =>
    if p.input.length ≤ cur then
      { p with buffer := p.buffer ++ p.sliceIn sb cur, pos := p.pos + (cur - sb),
               stringState := SState.text, ip := cur }
    else
      let c := p.input.getD cur 0
      if isIllegalControl c then
        let p := { p with pos := p.pos + (cur - sb + 1) }
        let p := p.fail JsonErrc.illegalControlCharacter
        { p with stringState := SState.text, ip := cur }
      else if c = 10 ∨ c = 13 ∨ c = 9 then
        let p := { p with pos := p.pos + (cur - sb + 1) }
        let p := p.fail JsonErrc.illegalCharacterInString
        { p with ip := cur }
      else if c = 92 then
        let p := { p with buffer := p.buffer ++ p.sliceIn sb cur,
                          pos := p.pos + (cur - sb + 1) }
        parseStringGo fuel SState.escape p (cur+1) sb
      else if c = 34 then
        let p := { p with pos := p.pos + (cur - sb + 1) }
        if p.buffer = [] then
          let p := p.endStringValue (p.sliceIn sb cur)
          if p.ec ≠ Option.none then { p with ip := cur } else { p with ip := cur + 1 }
        else
          let p := { p with buffer := p.buffer ++ p.sliceIn sb cur }
          let p := p.endStringValue p.buffer
          if p.ec ≠ Option.none then { p with ip := cur } else { p with ip := cur + 1 }
      else parseStringGo fuel SState.text p (cur+1) sb
  | fuel+1, SState.escape, p, cur, _ =>
    if p.input.length ≤ cur then { p with stringState := SState.escape, ip := cur }
    else
      let c := p.input.getD cur 0
      if c = 34 then
        let p := { p with buffer := p.buffer ++ [34], pos := p.pos + 1 }
        parseStringGo fuel SState.text p (cur+1) (cur+1)
      else if c = 92 then
        let p := { p with buffer := p.buffer ++ [92], pos := p.pos + 1 }
        parseStringGo fuel SState.text p (cur+1) (cur+1)
      else if c = 47 then
        let p := { p with buffer := p.buffer ++ [47], pos := p.pos + 1 }
        parseStringGo fuel SState.text p (cur+1) (cur+1)
      else if c = 98 then
        let p := { p with buffer := p.buffer ++ [8], pos := p.pos + 1 }
        parseStringGo fuel SState.text p (cur+1) (cur+1)
      else if c = 102 then
        let p := { p with buffer := p.buffer ++ [12], pos := p.pos + 1 }
        parseStringGo fuel SState.text p (cur+1) (cur+1)
      else if c = 110 then
        let p := { p with buffer := p.buffer ++ [10], pos := p.pos + 1 }
        parseStringGo fuel SState.text p (cur+1) (cur+1)
      else if c = 114 then
        let p := { p with buffer := p.buffer ++ [13], pos := p.pos + 1 }
        parseStringGo fuel SState.text p (cur+1) (cur+1)
      else if c = 116 then
        let p := { p with buffer := p.buffer ++ [9], pos := p.pos + 1 }
        parseStringGo fuel SState.text p (cur+1) (cur+1)
      else if c = 117 then
        let p := { p with cp := 0, pos := p.pos + 1 }
        parseStringGo fuel SState.escapeU1 p (cur+1) (cur+1)
      else
        let p := p.fail JsonErrc.illegalEscapedCharacter
        { p with stringState := SState.escape, ip := cur }
  | fuel+1, SState.escapeU1, p, cur, sb =>
    if p.input.length ≤ cur then { p with stringState := SState.escapeU1, ip := cur }
    else
      let (p, cp) := p.appendToCodepoint 0 (p.input.getD cur 0)
      let p := { p with cp := cp }
      if p.ec ≠ Option.none then { p with stringState := SState.escapeU1, ip := cur }
      else
        let p := { p with pos := p.pos + 1 }
        parseStringGo fuel SState.escapeU2 p (cur+1) sb
  | fuel+1, SState.escapeU2, p, cur, sb =>
    if p.input.length ≤ cur then { p with stringState := SState.escapeU2, ip := cur }
    else
      let (p, cp) := p.appendToCodepoint p.cp (p.input.getD cur 0)
      let p := { p with cp := cp }
      if p.ec ≠ Option.none then { p with stringState := SState.escapeU2, ip := cur }
      else
        let p := { p with pos := p.pos + 1 }
        parseStringGo fuel SState.escapeU3 p (cur+1) sb
  | fuel+1, SState.escapeU3, p, cur, sb =>
    if p.input.length ≤ cur then { p with stringState := SState.escapeU3, ip := cur }
    else
      let (p, cp) := p.appendToCodepoint p.cp (p.input.getD cur 0)
      let p := { p with cp := cp }
      if p.ec ≠ Option.none then { p with stringState := SState.escapeU3, ip := cur }
      else
        let p := { p with pos := p.pos + 1 }
        parseStringGo fuel SState.escapeU4 p (cur+1) sb
  | fuel+1, SState.escapeU4, p, cur, sb =>
    if p.input.length ≤ cur then { p with stringState := SState.escapeU4, ip := cur }
    else
      let (p, cp) := p.appendToCodepoint p.cp (p.input.getD cur 0)
      let p := { p with cp := cp }
      if p.ec ≠ Option.none then { p with stringState := SState.escapeU4, ip := cur }
      else if isHighSurrogate p.cp then
        let p := { p with pos := p.pos + 1 }
        parseStringGo fuel SState.escapeExpectSurrogatePair1 p (cur+1) sb
      else
        let p := { p with buffer := p.buffer ++ utf8Encode p.cp, pos := p.pos + 1 }
        { p with stringState := SState.text, ip := cur + 1 }
  | fuel+1, SState.escapeExpectSurrogatePair1, p, cur, sb =>
    if p.input.length ≤ cur then
      { p with stringState := SState.escapeExpectSurrogatePair1, ip := cur }
    else
      if p.input.getD cur 0 = 92 then
        let p := { p with cp2 := 0, pos := p.pos + 1 }
        parseStringGo fuel SState.escapeExpectSurrogatePair2 p (cur+1) sb
      else
        let p := p.fail JsonErrc.expectedCodepointSurrogatePair
        { p with stringState := SState.escapeExpectSurrogatePair1, ip := cur }
  | fuel+1, SState.escapeExpectSurrogatePair2, p, cur, sb =>
    if p.input.length ≤ cur then
      { p with stringState := SState.escapeExpectSurrogatePair2, ip := cur }
    else
      if p.input.getD cur 0 = 117 then
        let p := { p with pos := p.pos + 1 }
        parseStringGo fuel SState.escapeU5 p (cur+1) sb
      else
        let p := p.fail JsonErrc.expectedCodepointSurrogatePair
        { p with stringState := SState.escapeExpectSurrogatePair2, ip := cur }
  | fuel+1, SState.escapeU5, p, cur, sb =>
    if p.input.length ≤ cur then { p with stringState := SState.escapeU5, ip := cur }
    else
      let (p, cp2) := p.appendToCodepoint 0 (p.input.getD cur 0)
      let p := { p with cp2 := cp2 }
      if p.ec ≠ Option.none then { p with stringState := SState.escapeU5, ip := cur }
      else
        let p := { p with pos := p.pos + 1 }
        parseStringGo fuel SState.escapeU6 p (cur+1) sb
  | fuel+1, SState.escapeU6, p, cur, sb =>
    if p.input.length ≤ cur then { p with stringState := SState.escapeU6, ip := cur }
    else
      let (p, cp2) := p.appendToCodepoint p.cp2 (p.input.getD cur 0)
      let p := { p with cp2 := cp2 }
      if p.ec ≠ Option.none then { p with stringState := SState.escapeU6, ip := cur }
      else
        let p := { p with pos := p.pos + 1 }
        parseStringGo fuel SState.escapeU7 p (cur+1) sb
  | fuel+1, SState.escapeU7, p, cur, sb =>
    if p.input.length ≤ cur then { p with stringState := SState.escapeU7, ip := cur }
    else
      let (p, cp2) := p.appendToCodepoint p.cp2 (p.input.getD cur 0)
      let p := { p with cp2 := cp2 }
      if p.ec ≠ Option.none then { p with stringState := SState.escapeU7, ip := cur }
      else
        let p := { p with pos := p.pos + 1 }
        parseStringGo fuel SState.escapeU8 p (cur+1) sb
  | fuel+1, SState.escapeU8, p, cur, _ =>
    if p.input.length ≤ cur then { p with stringState := SState.escapeU8, ip := cur }
    else
      let (p, cp2) := p.appendToCodepoint p.cp2 (p.input.getD cur 0)
      let p := { p with cp2 := cp2 }
      if p.ec ≠ Option.none then { p with stringState := SState.escapeU8, ip := cur }
      else
        let combined := 0x10000 + ((p.cp % 1024) * 1024) + (p.cp2 % 1024)
        let p := { p with buffer := p.buffer ++ utf8Encode combined, pos := p.pos + 1 }
        parseStringGo fuel SState.text p (cur+1) (cur+1)

/-- parse_string entry: resumes at the saved inner state with the current
input index as both cursor and span start. -/
def Parser.parseString (p : Parser) : Parser :=
  parseStringGo (p.input.length + 1) p.stringState p p.ip p.ip

/-- parse_true: matches the four characters at once when the buffer holds
them, else consumes one character and enters the per-character states. -/
def Parser.parseTrue (p : Parser) : Parser :=
  let p := { p with beginPos := p.pos }
  if 4 ≤ p.input.length - p.ip then
    if p.input.getD (p.ip+1) 0 = 114 ∧ p.input.getD (p.ip+2) 0 = 117 ∧
        p.input.getD (p.ip+3) 0 = 101 then
      let p := { p with ip := p.ip + 4, pos := p.pos + 4 }
      let p := p.emit (Event.boolValue true STag.none)
      let p := if p.level = 0 then { p with state := PState.accept }
               else { p with state := PState.expectCommaOrEnd }
      { p with more := !p.cursorMode }
    else p.fail JsonErrc.invalidValue
  else { p with ip := p.ip + 1, pos := p.pos + 1, state := PState.t }

/-- parse_false, as parse_true with five characters. -/
def Parser.parseFalse (p : Parser) : Parser :=
  let p := { p with beginPos := p.pos }
  if 5 ≤ p.input.length - p.ip then
    if p.input.getD (p.ip+1) 0 = 97 ∧ p.input.getD (p.ip+2) 0 = 108 ∧
        p.input.getD (p.ip+3) 0 = 115 ∧ p.input.getD (p.ip+4) 0 = 101 then
      let p := { p with ip := p.ip + 5, pos := p.pos + 5 }
      let p := p.emit (Event.boolValue false STag.none)
      let p := { p with more := !p.cursorMode }
      if p.level = 0 then { p with state := PState.accept }
      else { p with state := PState.expectCommaOrEnd }
    else p.fail JsonErrc.invalidValue
  else { p with ip := p.ip + 1, pos := p.pos + 1, state := PState.f }

/-- parse_null, as parse_true. -/
def Parser.parseNull (p : Parser) : Parser :=
  let p := { p with beginPos := p.pos }
  if 4 ≤ p.input.length - p.ip then
    if p.input.getD (p.ip+1) 0 = 117 ∧ p.input.getD (p.ip+2) 0 = 108 ∧
        p.input.getD (p.ip+3) 0 = 108 then
      let p := { p with ip := p.ip + 4, pos := p.pos + 4 }
      let p := p.emit (Event.nullValue STag.none)
      let p := { p with more := !p.cursorMode }
      if p.level = 0 then { p with state := PState.accept }
      else { p with state := PState.expectCommaOrEnd }
    else p.fail JsonErrc.invalidValue
  else { p with ip := p.ip + 1, pos := p.pos + 1, state := PState.n }

/-- The accept epilogue of parse_some_: flush the visitor, mark done. -/
def Parser.flushAccept (p : Parser) : Parser :=
  let p := p.emit Event.flush
  { p with done := true, state := PState.done, more := false }

/-- The block parse_some_ runs when the input is exhausted on entry
(json_parser.hpp lines 583 to 627): numbers are finalised from the states
that may legally end a number, accept flushes, start and the other states
report unexpected_eof, cr pops. -/
def Parser.parseSomeEof (p : Parser) : Parser :=
  match p.state with
  | PState.number =>
    if p.numberState = NState.zero ∨ p.numberState = NState.integer then p.endIntegerValue
    else if p.numberState = NState.fraction2 ∨ p.numberState = NState.exp3 then
      p.endFractionValue
    else p.fail JsonErrc.unexpectedEof
  | PState.accept => p.flushAccept
  | PState.start => { p with more := false, ec := some JsonErrc.unexpectedEof }
  | PState.done => { p with more := false }
  | PState.cr =>
    let (st, p) := p.popState
    { p with state := st }
  | _ => p.fail JsonErrc.unexpectedEof

/-- One iteration of the parse_some_ dispatch loop; only entered with input
remaining and more set. -/
def Parser.parseSomeStep (p : Parser) : Parser :=
  match p.state with
  | PState.accept => p.flushAccept
  | PState.cr =>
    let p := { p with line := p.line + 1 }
    let p :=
      if p.curChar = 10 then
        let p := { p with ip := p.ip + 1, pos := p.pos + 1 }
        let (st, p) := p.popState
        { p with state := st }
      else
        let (st, p) := p.popState
        { p with state := st }
    { p with markPos := p.pos }
  | PState.start =>
    let c := p.curChar
    if isIllegalControl c then p.fail JsonErrc.illegalControlCharacter
    else if c = 32 ∨ c = 9 ∨ c = 10 ∨ c = 13 then p.skipSpace
    else if c = 47 then
      let p := { p with ip := p.ip + 1, pos := p.pos + 1 }
      let p := p.pushState p.state
      { p with state := PState.slash }
    else if c = 123 then
      let p := { p with beginPos := p.pos, ip := p.ip + 1, pos := p.pos + 1 }
      p.beginObjectV
    else if c = 91 then
      let p := { p with beginPos := p.pos, ip := p.ip + 1, pos := p.pos + 1 }
      p.beginArrayV
    else if c = 34 then
      let p := { p with state := PState.string, stringState := SState.text,
                        beginPos := p.pos, ip := p.ip + 1, pos := p.pos + 1, buffer := [] }
      p.parseString
    else if c = 45 then
      let p := { p with buffer := [45], beginPos := p.pos, ip := p.ip + 1, pos := p.pos + 1,
                        state := PState.number, numberState := NState.minus }
      p.parseNumber
    else if c = 48 then
      let p := { p with buffer := [48], state := PState.number, numberState := NState.zero,
                        beginPos := p.pos, ip := p.ip + 1, pos := p.pos + 1 }
      p.parseNumber
    else if isNonzeroDigitChar c then
      let p := { p with buffer := [c], beginPos := p.pos, ip := p.ip + 1, pos := p.pos + 1,
                        state := PState.number, numberState := NState.integer }
      p.parseNumber
    else if c = 110 then p.parseNull
    else if c = 116 then p.parseTrue
    else if c = 102 then p.parseFalse
    else if c = 125 then p.fail JsonErrc.unexpectedRbrace
    else if c = 93 then p.fail JsonErrc.unexpectedRbracket
    else p.fail JsonErrc.syntaxError
  | PState.expectCommaOrEnd =>
    let c := p.curChar
    if isIllegalControl c then p.fail JsonErrc.illegalControlCharacter
    else if c = 32 ∨ c = 9 ∨ c = 10 ∨ c = 13 then p.skipSpace
    else if c = 47 then
      let p := { p with ip := p.ip + 1, pos := p.pos + 1 }
      let p := p.pushState p.state
      { p with state := PState.slash }
    else if c = 125 then
      let p := { p with beginPos := p.pos, ip := p.ip + 1, pos := p.pos + 1 }
      p.endObjectV
    else if c = 93 then
      let p := { p with beginPos := p.pos, ip := p.ip + 1, pos := p.pos + 1 }
      p.endArrayV
    else if c = 44 then
      let p := p.beginMemberOrElement
      if p.ec ≠ Option.none then p else { p with ip := p.ip + 1, pos := p.pos + 1 }
    else
      if p.parent = PState.array then p.fail JsonErrc.expectedCommaOrRbracket
      else if p.parent = PState.object then p.fail JsonErrc.expectedCommaOrRbrace
      else p.fail JsonErrc.unexpectedCharacter
  | PState.expectMemberNameOrEnd =>
    let c := p.curChar
    if isIllegalControl c then p.fail JsonErrc.illegalControlCharacter
    else if c = 32 ∨ c = 9 ∨ c = 10 ∨ c = 13 then p.skipSpace
    else if c = 47 then
      let p := { p with ip := p.ip + 1, pos := p.pos + 1 }
      let p := p.pushState p.state
      { p with state := PState.slash }
    else if c = 125 then
      let p := { p with beginPos := p.pos, ip := p.ip + 1, pos := p.pos + 1 }
      p.endObjectV
    else if c = 34 then
      let p := { p with beginPos := p.pos, ip := p.ip + 1, pos := p.pos + 1 }
      let p := p.pushState PState.memberName
      let p := { p with state := PState.string, stringState := SState.text, buffer := [] }
      p.parseString
    else if c = 39 then p.fail JsonErrc.singleQuote
    else p.fail JsonErrc.expectedKey
  | PState.expectMemberName =>
    let c := p.curChar
    if isIllegalControl c then p.fail JsonErrc.illegalControlCharacter
    else if c = 32 ∨ c = 9 ∨ c = 10 ∨ c = 13 then p.skipSpace
    else if c = 47 then
      let p := { p with ip := p.ip + 1, pos := p.pos + 1 }
      let p := p.pushState p.state
      { p with state := PState.slash }
    else if c = 34 then
      let p := { p with beginPos := p.pos, ip := p.ip + 1, pos := p.pos + 1 }
      let p := p.pushState PState.memberName
      let p := { p with state := PState.string, stringState := SState.text, buffer := [] }
      p.parseString
    else if c = 125 then
      let p := { p with beginPos := p.pos, ip := p.ip + 1, pos := p.pos + 1 }
      if ¬ p.allowTrailingComma then p.fail JsonErrc.extraComma
      else p.endObjectV
    else if c = 39 then p.fail JsonErrc.singleQuote
    else p.fail JsonErrc.expectedKey
  | PState.expectColon =>
    let c := p.curChar
    if isIllegalControl c then p.fail JsonErrc.illegalControlCharacter
    else if c = 32 ∨ c = 9 ∨ c = 10 ∨ c = 13 then p.skipSpace
    else if c = 47 then
      let p := p.pushState p.state
      { p with state := PState.slash, ip := p.ip + 1, pos := p.pos + 1 }
    else if c = 58 then
      { p with state := PState.expectValue, ip := p.ip + 1, pos := p.pos + 1 }
    else p.fail JsonErrc.expectedColon
  | PState.expectValue =>
    let c := p.curChar
    if isIllegalControl c then p.fail JsonErrc.illegalControlCharacter
    else if c = 32 ∨ c = 9 ∨ c = 10 ∨ c = 13 then p.skipSpace
    else if c = 47 then
      let p := p.pushState p.state
      { p with state := PState.slash, ip := p.ip + 1, pos := p.pos + 1 }
    else if c = 123 then
      let p := { p with beginPos := p.pos, ip := p.ip + 1, pos := p.pos + 1 }
      p.beginObjectV
    else if c = 91 then
      let p := { p with beginPos := p.pos, ip := p.ip + 1, pos := p.pos + 1 }
      p.beginArrayV
    else if c = 34 then
      let p := { p with beginPos := p.pos, ip := p.ip + 1, pos := p.pos + 1,
                        state := PState.string, stringState := SState.text, buffer := [] }
      p.parseString
    else if c = 45 then
      let p := { p with buffer := [45], beginPos := p.pos, ip := p.ip + 1, pos := p.pos + 1,
                        state := PState.number, numberState := NState.minus }
      p.parseNumber
    else if c = 48 then
      let p := { p with buffer := [48], beginPos := p.pos, ip := p.ip + 1, pos := p.pos + 1,
                        state := PState.number, numberState := NState.zero }
      p.parseNumber
    else if isNonzeroDigitChar c then
      let p := { p with buffer := [c], beginPos := p.pos, ip := p.ip + 1, pos := p.pos + 1,
                        state := PState.number, numberState := NState.integer }
      p.parseNumber
    else if c = 110 then p.parseNull
    else if c = 116 then p.parseTrue
    else if c = 102 then p.parseFalse
    else if c = 93 then
      let p := { p with beginPos := p.pos, ip := p.ip + 1, pos := p.pos + 1 }
      if p.parent = PState.array then
        if ¬ p.allowTrailingComma then p.fail JsonErrc.extraComma
        else p.endArrayV
      else p.fail JsonErrc.expectedValue
    else if c = 39 then p.fail JsonErrc.singleQuote
    else p.fail JsonErrc.expectedValue
  | PState.expectValueOrEnd =>
    let c := p.curChar
    if isIllegalControl c then p.fail JsonErrc.illegalControlCharacter
    else if c = 32 ∨ c = 9 ∨ c = 10 ∨ c = 13 then p.skipSpace
    else if c = 47 then
      let p := { p with ip := p.ip + 1, pos := p.pos + 1 }
      let p := p.pushState p.state
      { p with state := PState.slash }
    else if c = 123 then
      let p := { p with beginPos := p.pos, ip := p.ip + 1, pos := p.pos + 1 }
      p.beginObjectV
    else if c = 91 then
      let p := { p with beginPos := p.pos, ip := p.ip + 1, pos := p.pos + 1 }
      p.beginArrayV
    else if c = 93 then
      let p := { p with beginPos := p.pos, ip := p.ip + 1, pos := p.pos + 1 }
      p.endArrayV
    else if c = 34 then
      let p := { p with beginPos := p.pos, ip := p.ip + 1, pos := p.pos + 1,
                        state := PState.string, stringState := SState.text, buffer := [] }
      p.parseString
    else if c = 45 then
      let p := { p with buffer := [45], beginPos := p.pos, ip := p.ip + 1, pos := p.pos + 1,
                        state := PState.number, numberState := NState.minus }
      p.parseNumber
    else if c = 48 then
      let p := { p with buffer := [48], beginPos := p.pos, ip := p.ip + 1, pos := p.pos + 1,
                        state := PState.number, numberState := NState.zero }
      p.parseNumber
    else if isNonzeroDigitChar c then
      let p := { p with buffer := [c], beginPos := p.pos, ip := p.ip + 1, pos := p.pos + 1,
                        state := PState.number, numberState := NState.integer }
      p.parseNumber
    else if c = 110 then p.parseNull
    else if c = 116 then p.parseTrue
    else if c = 102 then p.parseFalse
    else if c = 39 then p.fail JsonErrc.singleQuote
    else p.fail JsonErrc.expectedValue
  | PState.string => p.parseString
  | PState.number => p.parseNumber
  | PState.t =>
    if p.curChar = 114 then { p with ip := p.ip + 1, pos := p.pos + 1, state := PState.tr }
    else p.fail JsonErrc.invalidValue
  | PState.tr =>
    if p.curChar = 117 then { p with state := PState.tru, ip := p.ip + 1, pos := p.pos + 1 }
    else p.fail JsonErrc.invalidValue
  | PState.tru =>
    if p.curChar = 101 then
      let p := { p with ip := p.ip + 1, pos := p.pos + 1 }
      let p := p.emit (Event.boolValue true STag.none)
      let p := if p.level = 0 then { p with state := PState.accept }
               else { p with state := PState.expectCommaOrEnd }
      { p with more := !p.cursorMode }
    else p.fail JsonErrc.invalidValue
  | PState.f =>
    if p.curChar = 97 then { p with ip := p.ip + 1, pos := p.pos + 1, state := PState.fa }
    else p.fail JsonErrc.invalidValue
  | PState.fa =>
    if p.curChar = 108 then { p with state := PState.fal, ip := p.ip + 1, pos := p.pos + 1 }
    else p.fail JsonErrc.invalidValue
  | PState.fal =>
    if p.curChar = 115 then { p with state := PState.fals, ip := p.ip + 1, pos := p.pos + 1 }
    else p.fail JsonErrc.invalidValue
  | PState.fals =>
    if p.curChar = 101 then
      let p := { p with ip := p.ip + 1, pos := p.pos + 1 }
      let p := p.emit (Event.boolValue false STag.none)
      let p := if p.level = 0 then { p with state := PState.accept }
               else { p with state := PState.expectCommaOrEnd }
      { p with more := !p.cursorMode }
    else p.fail JsonErrc.invalidValue
  | PState.n =>
    if p.curChar = 117 then { p with ip := p.ip + 1, pos := p.pos + 1, state := PState.nu }
    else p.fail JsonErrc.invalidValue
  | PState.nu =>
    if p.curChar = 108 then { p with state := PState.nul, ip := p.ip + 1, pos := p.pos + 1 }
    else p.fail JsonErrc.invalidValue
  | PState.nul =>
    -- the source bumps position before inspecting the character
    let p := { p with pos := p.pos + 1 }
    if p.curChar = 108 then
      let p := p.emit (Event.nullValue STag.none)
      let p := if p.level = 0 then { p with state := PState.accept }
               else { p with state := PState.expectCommaOrEnd }
      let p := { p with more := !p.cursorMode }
      { p with ip := p.ip + 1 }
    else p.fail JsonErrc.invalidValue
  | PState.slash =>
    let c := p.curChar
    if c = 42 then
      if ¬ p.allowComments then { p with ec := some JsonErrc.illegalComment }
      else
        -- the default handler recovers from illegal_comment
        let p := { p with state := PState.slashStar }
        { p with ip := p.ip + 1, pos := p.pos + 1 }
    else if c = 47 then
      if ¬ p.allowComments then { p with ec := some JsonErrc.illegalComment }
      else
        let p := { p with state := PState.slashSlash }
        { p with ip := p.ip + 1, pos := p.pos + 1 }
    else p.fail JsonErrc.syntaxError
  | PState.slashStar =>
    let c := p.curChar
    if c = 13 then
      let p := p.pushState p.state
      { p with ip := p.ip + 1, pos := p.pos + 1, state := PState.cr }
    else if c = 10 then
      let p := { p with ip := p.ip + 1, line := p.line + 1, pos := p.pos + 1 }
      { p with markPos := p.pos }
    else if c = 42 then
      { p with ip := p.ip + 1, pos := p.pos + 1, state := PState.slashStarStar }
    else { p with ip := p.ip + 1, pos := p.pos + 1 }
  | PState.slashSlash =>
    let c := p.curChar
    if c = 13 ∨ c = 10 then
      let (st, p) := p.popState
      { p with state := st }
    else { p with ip := p.ip + 1, pos := p.pos + 1 }
  | PState.slashStarStar =>
    let c := p.curChar
    if c = 47 then
      let (st, p) := p.popState
      { p with state := st, ip := p.ip + 1, pos := p.pos + 1 }
    else { p with state := PState.slashStar, ip := p.ip + 1, pos := p.pos + 1 }
  | _ => p

/-- The dispatch loop of parse_some_: steps while input remains and more
holds.  Fuel bounds the non-consuming transitions; the entry function grants
enough for any input the development runs. -/
def Parser.parseSomeLoop : Nat → Parser → Parser
  | 0, p => p
  | fuel+1, p =>
    if p.ip < p.input.length ∧ p.more then Parser.parseSomeLoop fuel p.parseSomeStep else p

/-- parse_some_: flush immediately in accept, run the end-of-input block when
the window is exhausted, then the dispatch loop. -/
def Parser.parseSome (p : Parser) : Parser :=
  if p.state = PState.accept then p.flushAccept
  else
    let p := if p.input.length ≤ p.ip ∧ p.more then p.parseSomeEof else p
    Parser.parseSomeLoop (4 * p.input.length + 16) p

/-- finished: stopped other than at accept. -/
def Parser.finished (p : Parser) : Bool := !p.more && p.state != PState.accept

/-- finish_parse: parse_some until finished (with fuel). -/
def Parser.finishParseGo : Nat → Parser → Parser
  | 0, p => p
  | fuel+1, p => if p.finished then p else Parser.finishParseGo fuel p.parseSome

/-- Feed chunks one by one: each is installed with update then parsed with
parse_some, the host loop of the spec. -/
def feedChunks (p : Parser) (chunks : List (List Nat)) : Parser :=
  chunks.foldl (fun q c => (q.update c).parseSome) p

/-- Parse a document supplied as a chunk partition: feed every chunk, then
finish_parse on the exhausted window. -/
def runDoc (chunks : List (List Nat)) : Parser :=
  Parser.finishParseGo 8 (feedChunks parserNew chunks)

/-! The CBOR encoder (basic_cbor_encoder in cbor_encoder.hpp).  The sink is
the collected byte list; std::map is an association list (claims never depend
on iteration order, only on lookup and insert). -/

inductive CborContainerType where
  | object
  | indefiniteLengthObject
  | array
  | indefiniteLengthArray
  deriving DecidableEq, Repr

/-- stack_item of the encoder: container kind, declared length, raw index. -/
structure CborItem where
  type : CborContainerType
  length : Nat
  index : Nat
  deriving DecidableEq, Repr

def CborItem.isObject (it : CborItem) : Bool :=
  it.type == CborContainerType.object || it.type == CborContainerType.indefiniteLengthObject

def CborItem.isIndefiniteLength (it : CborItem) : Bool :=
  it.type == CborContainerType.indefiniteLengthArray ||
    it.type == CborContainerType.indefiniteLengthObject

/-- stack_item::count: the raw index, halved for objects since a member costs
two end_value bumps (one for the key, one for the value). -/
def CborItem.count (it : CborItem) : Nat := if it.isObject then it.index / 2 else it.index

/-- cbor_encode_options restricted to the fields the encoder reads. -/
structure CborOptions where
  packStrings : Bool := false
  useTypedArrays : Bool := false
  maxNestingDepth : Nat := 1024
  deriving DecidableEq, Repr

/-- State of basic_cbor_encoder: the sink bytes, the copied options, the
container stack (back of the vector is the end of the list), the two
stringref maps with the shared next index, the nesting depth, and the error
code of the current call. -/
structure Cbor where
  sink : List Nat
  packStrings : Bool
  useTypedArrays : Bool
  maxNestingDepth : Nat
  stack : List CborItem
  stringrefMap : List (List Nat × Nat)
  bytestringrefMap : List (List Nat × Nat)
  nextStringref : Nat
  nestingDepth : Nat
  ec : Option CborErrc
  deriving DecidableEq, Repr

def Cbor.push (st : Cbor) (b : Nat) : Cbor := { st with sink := st.sink ++ [b] }

def Cbor.pushList (st : Cbor) (bs : List Nat) : Cbor := { st with sink := st.sink ++ bs }

/-- write_tag: major type 6 with the standard CBOR head encoding. -/
def Cbor.writeTag (st : Cbor) (value : Nat) : Cbor :=
  if value ≤ 0x17 then st.push (0xc0 + value)
  else if value ≤ 0xff then (st.push 0xd8).push value
  else if value ≤ 0xffff then (st.push 0xd9).pushList (bytesBE 2 value)
  else if value ≤ 0xffffffff then (st.push 0xda).pushList (bytesBE 4 value)
  else (st.push 0xdb).pushList (bytesBE 8 value)

/-- write_uint64_value: major type 0. -/
def Cbor.writeUint64Value (st : Cbor) (value : Nat) : Cbor :=
  if value ≤ 0x17 then st.push value
  else if value ≤ 0xff then (st.push 0x18).push value
  else if value ≤ 0xffff then (st.push 0x19).pushList (bytesBE 2 value)
  else if value ≤ 0xffffffff then (st.push 0x1a).pushList (bytesBE 4 value)
  else (st.push 0x1b).pushList (bytesBE 8 value)

/-- write_int64_value: major type 0 for non-negative values, major type 1
encoding minus one minus the value for negative ones. -/
def Cbor.writeInt64Value (st : Cbor) (value : Int) : Cbor :=
  if 0 ≤ value then
    let v := value.toNat
    if v ≤ 0x17 then st.push v
    else if v ≤ 0xff then (st.push 0x18).push v
    else if v ≤ 0xffff then (st.push 0x19).pushList (bytesBE 2 v)
    else if v ≤ 0xffffffff then (st.push 0x1a).pushList (bytesBE 4 v)
    else (st.push 0x1b).pushList (bytesBE 8 v)
  else
    let posnum := (-1 - value).toNat
    if -24 ≤ value then st.push (0x20 + posnum)
    else if posnum ≤ 0xff then (st.push 0x38).push posnum
    else if posnum ≤ 0xffff then (st.push 0x39).pushList (bytesBE 2 posnum)
    else if posnum ≤ 0xffffffff then (st.push 0x3a).pushList (bytesBE 4 posnum)
    else (st.push 0x3b).pushList (bytesBE 8 posnum)

/-- end_value: bump the index of the enclosing container, if any. -/
def Cbor.endValue (st : Cbor) : Cbor :=
  match st.stack.getLast? with
  | some it => { st with stack := st.stack.dropLast ++ [{ it with index := it.index + 1 }] }
  | Option.none => st

/-- write_utf8_string: major type 3 head then the bytes. -/
def Cbor.writeUtf8String (st : Cbor) (sv : List Nat) : Cbor :=
  let length := sv.length
  let st :=
    if length ≤ 0x17 then st.push (0x60 + length)
    else if length ≤ 0xff then (st.push 0x78).push length
    else if length ≤ 0xffff then (st.push 0x79).pushList (bytesBE 2 length)
    else if length ≤ 0xffffffff then (st.push 0x7a).pushList (bytesBE 4 length)
    else (st.push 0x7b).pushList (bytesBE 8 length)
  st.pushList sv

/-- write_byte_string: major type 2 head then the bytes. -/
def Cbor.writeByteString (st : Cbor) (b : List Nat) : Cbor :=
  let length := b.length
  let st :=
    if length ≤ 0x17 then st.push (0x40 + length)
    else if length ≤ 0xff then (st.push 0x58).push length
    else if length ≤ 0xffff then (st.push 0x59).pushList (bytesBE 2 length)
    else if length ≤ 0xffffffff then (st.push 0x5a).pushList (bytesBE 4 length)
    else (st.push 0x5b).pushList (bytesBE 8 length)
  st.pushList b

/-- Modelled from the spec: jsoncons::cbor::detail::min_length_for_stringref
(not under src/): the length threshold of the stringref extension below which
a string is never worth a reference; it grows as indices grow. -/
def minLengthForStringref (index : Nat) : Nat :=
  if index ≤ 23 then 3
  else if index ≤ 255 then 4
  else if index ≤ 65535 then 5
  else if index ≤ 4294967295 then 7
  else 11

def assocFind : List (List Nat × Nat) → List Nat → Option Nat
  | [], _ => Option.none
  | (k, v) :: rest, s => if k = s then some v else assocFind rest s

/-- write_string: UTF-8 validation, then — when pack_strings is on and the
length reaches the threshold for the next index — either the first-occurrence
registration with a literal body, or tag 25 with the registered index; the
C++ raises ser_error on invalid UTF-8, modelled as the error code with no
output. -/
def Cbor.writeString (st : Cbor) (sv : List Nat) : Cbor :=
  match utf8Validate sv with
  | some _ => { st with ec := some CborErrc.invalidUtf8TextString }
  | Option.none =>
    if st.packStrings ∧ minLengthForStringref st.nextStringref ≤ sv.length then
      match assocFind st.stringrefMap sv with
      | Option.none =>
        let st := { st with stringrefMap := st.stringrefMap ++ [(sv, st.nextStringref)],
                            nextStringref := st.nextStringref + 1 }
        st.writeUtf8String sv
      | some idx => (st.writeTag 25).writeUint64Value idx
    else st.writeUtf8String sv

/-- The encoder constructor: with pack_strings it prefixes tag 256. -/
def cborMk (opts : CborOptions) : Cbor :=
  let base : Cbor :=
    { sink := [], packStrings := opts.packStrings, useTypedArrays := opts.useTypedArrays,
      maxNestingDepth := opts.maxNestingDepth, stack := [], stringrefMap := [],
      bytestringrefMap := [], nextStringref := 0, nestingDepth := 0, ec := Option.none }
  if opts.packStrings then base.writeTag 256 else base

/-- reset of the encoder: wipes the stack, the maps, the next index and the
nesting depth (the sink is kept, or replaced by the sink-taking overload). -/
def Cbor.reset (st : Cbor) : Cbor :=
  { st with stack := [], stringrefMap := [], bytestringrefMap := [],
            nextStringref := 0, nestingDepth := 0 }

/-- visit_begin_object (indefinite length). -/
def Cbor.visitBeginObject (st : Cbor) : Cbor :=
  let st := { st with nestingDepth := st.nestingDepth + 1 }
  if st.maxNestingDepth < st.nestingDepth then
    { st with ec := some CborErrc.maxNestingDepthExceeded }
  else
    let st := { st with stack := st.stack ++ [CborItem.mk CborContainerType.indefiniteLengthObject 0 0] }
    st.push 0xbf

/-- visit_begin_object with a declared length: major type 5 head. -/
def Cbor.visitBeginObjectLen (st : Cbor) (length : Nat) : Cbor :=
  let st := { st with nestingDepth := st.nestingDepth + 1 }
  if st.maxNestingDepth < st.nestingDepth then
    { st with ec := some CborErrc.maxNestingDepthExceeded }
  else
    let st := { st with stack := st.stack ++ [CborItem.mk CborContainerType.object length 0] }
    if length ≤ 0x17 then st.push (0xa0 + length)
    else if length ≤ 0xff then (st.push 0xb8).push length
    else if length ≤ 0xffff then (st.push 0xb9).pushList (bytesBE 2 length)
    else if length ≤ 0xffffffff then (st.push 0xba).pushList (bytesBE 4 length)
    else (st.push 0xbb).pushList (bytesBE 8 length)

/-- visit_end_object: the break byte for indefinite containers; for definite
ones the child count is checked against the declared length, raising
too_few_items or too_many_items without popping. -/
def Cbor.visitEndObject (st : Cbor) : Cbor :=
  let st := { st with nestingDepth := st.nestingDepth - 1 }
  match st.stack.getLast? with
  | Option.none => st
  | some it =>
    if it.isIndefiniteLength then
      let st := st.push 0xff
      ({ st with stack := st.stack.dropLast }).endValue
    else
      if it.count < it.length then { st with ec := some CborErrc.tooFewItems }
      else if it.length < it.count then { st with ec := some CborErrc.tooManyItems }
      else ({ st with stack := st.stack.dropLast }).endValue

/-- visit_begin_array (indefinite length). -/
def Cbor.visitBeginArray (st : Cbor) : Cbor :=
  let st := { st with nestingDepth := st.nestingDepth + 1 }
  if st.maxNestingDepth < st.nestingDepth then
    { st with ec := some CborErrc.maxNestingDepthExceeded }
  else
    let st := { st with stack := st.stack ++ [CborItem.mk CborContainerType.indefiniteLengthArray 0 0] }
    st.push 0x9f

/-- visit_begin_array with a declared length: major type 4 head. -/
def Cbor.visitBeginArrayLen (st : Cbor) (length : Nat) : Cbor :=
  let st := { st with nestingDepth := st.nestingDepth + 1 }
  if st.maxNestingDepth < st.nestingDepth then
    { st with ec := some CborErrc.maxNestingDepthExceeded }
  else
    let st := { st with stack := st.stack ++ [CborItem.mk CborContainerType.array length 0] }
    if length ≤ 0x17 then st.push (0x80 + length)
    else if length ≤ 0xff then (st.push 0x98).push length
    else if length ≤ 0xffff then (st.push 0x99).pushList (bytesBE 2 length)
    else if length ≤ 0xffffffff then (st.push 0x9a).pushList (bytesBE 4 length)
    else (st.push 0x9b).pushList (bytesBE 8 length)

/-- visit_end_array, as visit_end_object. -/
def Cbor.visitEndArray (st : Cbor) : Cbor :=
  let st := { st with nestingDepth := st.nestingDepth - 1 }
  match st.stack.getLast? with
  | Option.none => st
  | some it =>
    if it.isIndefiniteLength then
      let st := st.push 0xff
      ({ st with stack := st.stack.dropLast }).endValue
    else
      if it.count < it.length then { st with ec := some CborErrc.tooFewItems }
      else if it.length < it.count then { st with ec := some CborErrc.tooManyItems }
      else ({ st with stack := st.stack.dropLast }).endValue

/-- visit_string for the tags the claims exercise.  The bigint, bigdec and
bigfloat re-encoding branches (write_bignum, write_decimal_value,
write_hexfloat_value) fall outside every claim and are left unembedded: those
three tags return the state unchanged here. -/
def Cbor.visitString (st : Cbor) (sv : List Nat) (tag : STag) : Cbor :=
  match tag with
  | STag.bigint => st
  | STag.bigdec => st
  | STag.bigfloat => st
  | STag.datetime => ((st.writeTag 0).writeString sv).endValue
  | STag.uri => ((st.writeTag 32).writeString sv).endValue
  | STag.base64url => ((st.writeTag 33).writeString sv).endValue
  | STag.base64 => ((st.writeTag 34).writeString sv).endValue
  | _ => (st.writeString sv).endValue

/-- visit_key of the encoder: visit_string with tag none. -/
def Cbor.visitKey (st : Cbor) (name : List Nat) : Cbor := st.visitString name STag.none

/-- visit_byte_string (semantic-tag overload): the encoding-hint tag, then the
stringref branch over the byte-string map (sharing next_stringref with the
string map), else the literal body. -/
def Cbor.visitByteString (st : Cbor) (b : List Nat) (tag : STag) : Cbor :=
  let st :=
    match tag with
    | STag.base64url => st.writeTag 21
    | STag.base64 => st.writeTag 22
    | STag.base16 => st.writeTag 23
    | _ => st
  let st :=
    if st.packStrings ∧ minLengthForStringref st.nextStringref ≤ b.length then
      match assocFind st.bytestringrefMap b with
      | Option.none =>
        let st := { st with bytestringrefMap := st.bytestringrefMap ++ [(b, st.nextStringref)],
                            nextStringref := st.nextStringref + 1 }
        st.writeByteString b
      | some idx => (st.writeTag 25).writeUint64Value idx
    else st.writeByteString b
  st.endValue

/-- visit_bool. -/
def Cbor.visitBool (st : Cbor) (value : Bool) : Cbor :=
  (if value then st.push 0xf5 else st.push 0xf4).endValue

/-- visit_null: 0xf7 under the undefined tag, else 0xf6. -/
def Cbor.visitNull (st : Cbor) (tag : STag) : Cbor :=
  (if tag = STag.undefined then st.push 0xf7 else st.push 0xf6).endValue

/-- visit_double: tag 1 with rescaling to seconds for the epoch tags (the
division skipped at zero), then float narrowing — 0xfa with the binary32
bytes when casting to float and back compares equal, else 0xfb with the
binary64 bytes. -/
def Cbor.visitDouble (st : Cbor) (value : F64) (tag : STag) : Cbor :=
  let stval : Cbor × F64 :=
    match tag with
    | STag.epochSecond => (st.writeTag 1, value)
    | STag.epochMilli =>
      (st.writeTag 1, if f64Eq value (F64.zero false) then value else value.divNat 1000)
    | STag.epochNano =>
      (st.writeTag 1, if f64Eq value (F64.zero false) then value else value.divNat 1000000000)
    | _ => (st, value)
  let st := stval.1
  let val := stval.2
  let valf := val.castToF32
  let st :=
    if f64Eq valf.widen val then (st.push 0xfa).pushList valf.bytes
    else (st.push 0xfb).pushList val.bytes
  st.endValue

/-- visit_int64: the epoch_milli and epoch_nano cases delegate to
visit_double and then fall out of the switch, so the raw integer is written
as well (cbor_encoder.hpp lines 1152 to 1166); epoch_second writes tag 1 then
the integer. -/
def Cbor.visitInt64 (st : Cbor) (value : Int) (tag : STag) : Cbor :=
  let st :=
    match tag with
    | STag.epochMilli => st.visitDouble (intToF64 value) STag.epochMilli
    | STag.epochNano => st.visitDouble (intToF64 value) STag.epochNano
    | STag.epochSecond => st.writeTag 1
    | _ => st
  (st.writeInt64Value value).endValue

/-- visit_uint64, shaped as visit_int64. -/
def Cbor.visitUint64 (st : Cbor) (value : Nat) (tag : STag) : Cbor :=
  let st :=
    match tag with
    | STag.epochMilli => st.visitDouble (intToF64 (value : Int)) STag.epochMilli
    | STag.epochNano => st.visitDouble (intToF64 (value : Int)) STag.epochNano
    | STag.epochSecond => st.writeTag 1
    | _ => st
  (st.writeUint64Value value).endValue

/-! The tree decoder (json_decoder in json_decoder.hpp). -/

/-- A decoded tagged tree value. -/
inductive JsonValue where
  | nullValue (tag : STag)
  | boolValue (b : Bool) (tag : STag)
  | int64Value (v : Int) (tag : STag)
  | uint64Value (v : Nat) (tag : STag)
  | halfValue (v : Nat) (tag : STag)
  | doubleValue (d : F64) (tag : STag)
  | stringValue (s : List Nat) (tag : STag)
  | byteStringValue (b : List Nat) (tag : STag)
  | byteStringExt (b : List Nat) (extTag : Nat)
  | arrayValue (items : List JsonValue) (tag : STag)
  | objectValue (members : List (List Nat × JsonValue)) (tag : STag)

inductive StructureType where
  | root
  | array
  | object
  deriving DecidableEq, Repr

/-- structure_info: frame kind and the item-stack index of its container. -/
structure StructureInfo where
  type : StructureType
  containerIndex : Nat
  deriving DecidableEq, Repr

/-- State of json_decoder: the result slot, the running item index, the
pending member name, the flat item buffer of (key, index, value) triples, the
structure stack (root frame at the bottom) and the validity flag. -/
structure Decoder where
  result : JsonValue
  index : Nat
  name : List Nat
  itemStack : List (List Nat × Nat × JsonValue)
  structureStack : List StructureInfo
  isValid : Bool

/-- The decoder constructor; the default-constructed result placeholder is
never read before being overwritten and its identity is outside the claims. -/
def decoderNew : Decoder :=
  { result := JsonValue.nullValue STag.none, index := 0, name := [], itemStack := [],
    structureStack := [⟨StructureType.root, 0⟩], isValid := false }

/-- reset of the decoder. -/
def Decoder.reset (d : Decoder) : Decoder :=
  { d with isValid := false, index := 0, itemStack := [],
           structureStack := [⟨StructureType.root, 0⟩] }

def Decoder.top (d : Decoder) : StructureInfo :=
  d.structureStack.getLastD ⟨StructureType.root, 0⟩

/-- visit_begin_object of the decoder: at the root frame the accumulated
state is discarded first (index to 0, item stack cleared, is_valid false);
then the placeholder item is appended (moving the name out) and the object
frame pushed with its container index. -/
def Decoder.visitBeginObject (d : Decoder) (tag : STag) : Decoder :=
  let d :=
    if d.top.type = StructureType.root then
      { d with index := 0, itemStack := [], isValid := false }
    else d
  let d := { d with itemStack := d.itemStack ++ [(d.name, d.index, JsonValue.objectValue [] tag)],
                    index := d.index + 1, name := [] }
  { d with structureStack := d.structureStack ++ [⟨StructureType.object, d.itemStack.length - 1⟩] }

/-- visit_begin_array of the decoder, as visit_begin_object. -/
def Decoder.visitBeginArray (d : Decoder) (tag : STag) : Decoder :=
  let d :=
    if d.top.type = StructureType.root then
      { d with index := 0, itemStack := [], isValid := false }
    else d
  let d := { d with itemStack := d.itemStack ++ [(d.name, d.index, JsonValue.arrayValue [] tag)],
                    index := d.index + 1, name := [] }
  { d with structureStack := d.structureStack ++ [⟨StructureType.array, d.itemStack.length - 1⟩] }

/-- visit_end_object: the items past the container index become the members
of the object placeholder, the slice is erased and the frame popped; back at
the root frame the lone remaining item moves into the result slot. -/
def Decoder.visitEndObject (d : Decoder) : Decoder :=
  match d.structureStack.getLast? with
  | Option.none => d
  | some fr =>
    let si := fr.containerIndex
    let slice := d.itemStack.drop (si + 1)
    let d :=
      match d.itemStack.get? si with
      | some (nm, ix, JsonValue.objectValue _ tg) =>
        { d with itemStack := d.itemStack.take si ++
            [(nm, ix, JsonValue.objectValue (slice.map (fun (it : List Nat × Nat × JsonValue) => (it.1, it.2.2))) tg)] }
      | _ => { d with itemStack := d.itemStack.take (si + 1) }
    let d := { d with structureStack := d.structureStack.dropLast }
    if d.top.type = StructureType.root then
      match d.itemStack.getLast? with
      | some it =>
        { d with result := it.2.2, itemStack := d.itemStack.dropLast, isValid := true }
      | Option.none => d
    else d

/-- visit_end_array, as visit_end_object with element order preserved. -/
def Decoder.visitEndArray (d : Decoder) : Decoder :=
  match d.structureStack.getLast? with
  | Option.none => d
  | some fr =>
    let si := fr.containerIndex
    let slice := d.itemStack.drop (si + 1)
    let d :=
      match d.itemStack.get? si with
      | some (nm, ix, JsonValue.arrayValue _ tg) =>
        { d with itemStack := d.itemStack.take si ++
            [(nm, ix, JsonValue.arrayValue (slice.map (fun (it : List Nat × Nat × JsonValue) => it.2.2)) tg)] }
      | _ => { d with itemStack := d.itemStack.take (si + 1) }
    let d := { d with structureStack := d.structureStack.dropLast }
    if d.top.type = StructureType.root then
      match d.itemStack.getLast? with
      | some it =>
        { d with result := it.2.2, itemStack := d.itemStack.dropLast, isValid := true }
      | Option.none => d
    else d

/-- visit_key of the decoder: stores the pending member name. -/
def Decoder.visitKey (d : Decoder) (s : List Nat) : Decoder := { d with name := s }

/-- The shared scalar path: append an item inside a container, set the result
at the root. -/
def Decoder.scalar (d : Decoder) (v : JsonValue) : Decoder :=
  match d.top.type with
  | StructureType.object =>
    { d with itemStack := d.itemStack ++ [(d.name, d.index, v)], index := d.index + 1,
             name := [] }
  | StructureType.array =>
    { d with itemStack := d.itemStack ++ [(d.name, d.index, v)], index := d.index + 1,
             name := [] }
  | StructureType.root => { d with result := v, isValid := true }

def Decoder.visitString (d : Decoder) (s : List Nat) (tag : STag) : Decoder :=
  d.scalar (JsonValue.stringValue s tag)

def Decoder.visitInt64 (d : Decoder) (v : Int) (tag : STag) : Decoder :=
  d.scalar (JsonValue.int64Value v tag)

def Decoder.visitUint64 (d : Decoder) (v : Nat) (tag : STag) : Decoder :=
  d.scalar (JsonValue.uint64Value v tag)

def Decoder.visitDouble (d : Decoder) (v : F64) (tag : STag) : Decoder :=
  d.scalar (JsonValue.doubleValue v tag)

def Decoder.visitBool (d : Decoder) (b : Bool) (tag : STag) : Decoder :=
  d.scalar (JsonValue.boolValue b tag)

def Decoder.visitNull (d : Decoder) (tag : STag) : Decoder :=
  d.scalar (JsonValue.nullValue tag)

/-! Pure byte images of the low-level writers, used to state theorems about
appended output. -/

/-- The bytes write_uint64_value appends for a value (major type 0 head). -/
def cborUintBytes (value : Nat) : List Nat :=
  if value ≤ 0x17 then [value]
  else if value ≤ 0xff then [0x18, value]
  else if value ≤ 0xffff then 0x19 :: bytesBE 2 value
  else if value ≤ 0xffffffff then 0x1a :: bytesBE 4 value
  else 0x1b :: bytesBE 8 value

/-- The bytes write_utf8_string appends for a string body. -/
def cborUtf8StringBytes (sv : List Nat) : List Nat :=
  let length := sv.length
  (if length ≤ 0x17 then [0x60 + length]
   else if length ≤ 0xff then [0x78, length]
   else if length ≤ 0xffff then 0x79 :: bytesBE 2 length
   else if length ≤ 0xffffffff then 0x7a :: bytesBE 4 length
   else 0x7b :: bytesBE 8 length) ++ sv

/-- The bytes write_byte_string appends for a byte-string body. -/
def cborByteStringBytes (b : List Nat) : List Nat :=
  let length := b.length
  (if length ≤ 0x17 then [0x40 + length]
   else if length ≤ 0xff then [0x58, length]
   else if length ≤ 0xffff then 0x59 :: bytesBE 2 length
   else if length ≤ 0xffffffff then 0x5a :: bytesBE 4 length
   else 0x5b :: bytesBE 8 length) ++ b

/-- Hexadecimal digit predicate of append_to_codepoint. -/
def isHexDigitChar (c : Nat) : Bool :=
  decide ((48 ≤ c ∧ c ≤ 57) ∨ (97 ≤ c ∧ c ≤ 102) ∨ (65 ≤ c ∧ c ≤ 70))

/-- Value of a hexadecimal digit character. -/
def hexVal (c : Nat) : Nat :=
  if 48 ≤ c ∧ c ≤ 57 then c - 48
  else if 97 ≤ c ∧ c ≤ 102 then c - 97 + 10
  else if 65 ≤ c ∧ c ≤ 70 then c - 65 + 10
  else 0

/-- Key and boolean-value pairs fed to the CBOR encoder, the children of a
definite-length object under test. -/
def emitPairs : Nat → Cbor → Cbor
  | 0, st => st
  | k+1, st => emitPairs k ((st.visitKey [97]).visitBool true)

/-- Boolean elements fed to the CBOR encoder, the children of a
definite-length array under test. -/
def emitElems : Nat → Cbor → Cbor
  | 0, st => st
  | k+1, st => emitElems k (st.visitBool true)

/-! Supporting lemmas. -/

theorem bytesBE_length (k n : Nat) : (bytesBE k n).length = k := by
  simp [bytesBE]

theorem sink_writeUint64 (st : Cbor) (v : Nat) :
    (st.writeUint64Value v).sink = st.sink ++ cborUintBytes v := by
  unfold Cbor.writeUint64Value cborUintBytes Cbor.push Cbor.pushList
  split_ifs <;> simp

theorem sink_writeUtf8String (st : Cbor) (sv : List Nat) :
    (st.writeUtf8String sv).sink = st.sink ++ cborUtf8StringBytes sv := by
  simp only [Cbor.writeUtf8String, cborUtf8StringBytes, Cbor.push, Cbor.pushList]
  split_ifs <;> simp

theorem events_afterValue (p : Parser) : p.afterValue.events = p.events := by
  unfold Parser.afterValue
  split <;> rfl

theorem sink_writeByteString (st : Cbor) (b : List Nat) :
    (st.writeByteString b).sink = st.sink ++ cborByteStringBytes b := by
  simp only [Cbor.writeByteString, cborByteStringBytes, Cbor.push, Cbor.pushList]
  split_ifs <;> simp

/-! Claim theorems. -/

/-- C1: the claim that any chunk partition of a JSON text yields the same
events and errors as one-shot parsing fails on the code: on buffer exhaustion
right after a leading zero, parse_number saves inner state integer instead of
zero (json_parser.hpp line 1743), so the resumed parser forgets the
leading-zero check.  The text 01 parsed whole raises leading_zero with no
events, while the same text split as 0 and 1 parses cleanly to uint64 1. -/
theorem parse_number_zero_state_chunk_divergence :
    (runDoc [[48, 49]]).ec = some JsonErrc.leadingZero ∧
    (runDoc [[48, 49]]).events = [] ∧
    (runDoc [[48], [49]]).ec = Option.none ∧
    (runDoc [[48], [49]]).events = [Event.uint64Value 1 STag.none, Event.flush] ∧
    ((parserNew.update [48]).parseSome).numberState = NState.integer := by
  exact ⟨rfl, rfl, rfl, rfl, rfl⟩

/-- C2 counterexample: the decimal text for 2 to the 63 minus 1 produces a
uint64 event, not the int64 event the claim states — end_integer_value routes
every unsigned number through end_positive_value and the uint64 visitor. -/
theorem int64_boundary_counterexample :
    (runDoc [[57, 50, 50, 51, 51, 55, 50, 48, 51, 54, 56, 53, 52, 55, 55, 53, 56, 48, 55]]).events
      = [Event.uint64Value 9223372036854775807 STag.none, Event.flush] := by
  rfl

/-- C2 amended: at the integer-type boundaries the parser emits uint64 for
2 to the 63 minus 1, uint64 for 2 to the 63, uint64 for 2 to the 64 minus 1,
and a bigint-tagged string for 2 to the 64 (int64 appears only for negative
numbers: minus 2 to the 63 gives int64, one less overflows to bigint);
in general end_integer_value is sign-typed — an unsigned buffer goes through
the uint64 conversion and a minus-signed one through the int64 conversion,
each falling back to a bigint string event on overflow. -/
theorem integer_boundaries_sign_typed (p : Parser) :
    (runDoc [[57, 50, 50, 51, 51, 55, 50, 48, 51, 54, 56, 53, 52, 55, 55, 53, 56, 48, 55]]).events
      = [Event.uint64Value (2 ^ 63 - 1) STag.none, Event.flush] ∧
    (runDoc [[57, 50, 50, 51, 51, 55, 50, 48, 51, 54, 56, 53, 52, 55, 55, 53, 56, 48, 56]]).events
      = [Event.uint64Value (2 ^ 63) STag.none, Event.flush] ∧
    (runDoc [[49, 56, 52, 52, 54, 55, 52, 52, 48, 55, 51, 55, 48, 57, 53, 53, 49, 54, 49, 53]]).events
      = [Event.uint64Value (2 ^ 64 - 1) STag.none, Event.flush] ∧
    (runDoc [[49, 56, 52, 52, 54, 55, 52, 52, 48, 55, 51, 55, 48, 57, 53, 53, 49, 54, 49, 54]]).events
      = [Event.stringValue [49, 56, 52, 52, 54, 55, 52, 52, 48, 55, 51, 55, 48, 57, 53, 53, 49, 54, 49, 54] STag.bigint,
         Event.flush] ∧
    (runDoc [[45, 57, 50, 50, 51, 51, 55, 50, 48, 51, 54, 56, 53, 52, 55, 55, 53, 56, 48, 56]]).events
      = [Event.int64Value (-(2 ^ 63)) STag.none, Event.flush] ∧
    (p.buffer.headD 0 ≠ 45 →
      p.endIntegerValue.events = p.events ++
        [match decToUint64 p.buffer with
         | some v => Event.uint64Value v STag.none
         | Option.none => Event.stringValue p.buffer STag.bigint]) ∧
    (p.buffer.headD 0 = 45 →
      p.endIntegerValue.events = p.events ++
        [match decToInt64 p.buffer with
         | some v => Event.int64Value v STag.none
         | Option.none => Event.stringValue p.buffer STag.bigint]) := by
  refine ⟨rfl, rfl, rfl, rfl, rfl, ?_, ?_⟩
  · intro h
    unfold Parser.endIntegerValue
    rw [if_neg h]
    unfold Parser.endPositiveValue
    cases hc : decToUint64 p.buffer <;> simp [hc, events_afterValue, Parser.emit]
  · intro h
    unfold Parser.endIntegerValue
    rw [if_pos h]
    unfold Parser.endNegativeValue
    cases hc : decToInt64 p.buffer <;> simp [hc, events_afterValue, Parser.emit]

/-- C2 witness. -/
theorem integer_boundaries_sign_typed_witness :
    (parserNew.endIntegerValue.events = parserNew.events ++
      [match decToUint64 parserNew.buffer with
       | some v => Event.uint64Value v STag.none
       | Option.none => Event.stringValue parserNew.buffer STag.bigint]) :=
  (integer_boundaries_sign_typed parserNew).2.2.2.2.2.1 (by decide)

/-- C3: the claim that an int64 event tagged epoch_milli makes the CBOR
encoder write tag 1 followed by exactly one data item (the rescaled double)
is right, and the code is wrong: visit_int64 calls visit_double for the
epoch_milli and epoch_nano tags but then falls out of the switch and also
writes the raw integer (cbor_encoder.hpp lines 1152 to 1166).  For the int64
event value 0 tagged epoch_milli the sink receives tag 1, the float 0.0, and
then an extra integer item 0x00; inside a container the child counter is
bumped twice for the single event; the epoch_second path writes the single
integer item the spec describes. -/
theorem epoch_milli_integer_event_writes_two_items :
    ((cborMk {}).visitInt64 0 STag.epochMilli).sink
      = [0xc1, 0xfa, 0x00, 0x00, 0x00, 0x00] ++ [0x00] ∧
    (((cborMk {}).visitBeginArray).visitInt64 0 STag.epochMilli).stack
      = [CborItem.mk CborContainerType.indefiniteLengthArray 0 2] ∧
    ((cborMk {}).visitInt64 1 STag.epochSecond).sink = [0xc1, 0x01] ∧
    ((cborMk {}).visitUint64 0 STag.epochNano).sink
      = [0xc1, 0xfa, 0x00, 0x00, 0x00, 0x00] ++ [0x00] := by
  refine ⟨?_, ?_, ?_, ?_⟩ <;> decide

/-- C5 counterexample: reset() does not restore every piece of non-config
state to its freshly constructed value.  After parsing the chunk 1 the
scratch buffer holds that digit and the input window is installed; reset
leaves both in place, unlike a fresh parser. -/
theorem reset_retains_scratch_buffer :
    ((parserNew.update [49]).parseSome).reset.buffer = [49] ∧
    parserNew.buffer = [] ∧
    ((parserNew.update [49]).parseSome).reset.input = [49] ∧
    parserNew.input = [] := by
  exact ⟨rfl, rfl, rfl, rfl⟩

/-- C5 amended: reset() re-initialises the outer state, the state stack, the
line and position counters, the mark position, the level and the more/done
flags to their fresh values, but leaves the scratch buffer, the codepoint
accumulators cp and cp2, begin_position, the input window and the inner
string/number states untouched; reinitialize() additionally clears those
(except the inner states, which are re-armed on entry to each string or
number). -/
theorem reset_reinitialize_frame (p : Parser) :
    (p.reset.state = parserNew.state ∧ p.reset.stateStack = parserNew.stateStack ∧
     p.reset.line = parserNew.line ∧ p.reset.pos = parserNew.pos ∧
     p.reset.markPos = parserNew.markPos ∧ p.reset.level = parserNew.level ∧
     p.reset.more = parserNew.more ∧ p.reset.done = parserNew.done) ∧
    (p.reset.buffer = p.buffer ∧ p.reset.cp = p.cp ∧ p.reset.cp2 = p.cp2 ∧
     p.reset.beginPos = p.beginPos ∧ p.reset.input = p.input ∧ p.reset.ip = p.ip ∧
     p.reset.stringState = p.stringState ∧ p.reset.numberState = p.numberState) ∧
    (p.reinitialize.buffer = parserNew.buffer ∧ p.reinitialize.cp = parserNew.cp ∧
     p.reinitialize.cp2 = parserNew.cp2 ∧ p.reinitialize.beginPos = parserNew.beginPos ∧
     p.reinitialize.input = parserNew.input ∧ p.reinitialize.ip = parserNew.ip) ∧
    (p.reset.maxNestingDepth = p.maxNestingDepth ∧
     p.reset.allowTrailingComma = p.allowTrailingComma ∧
     p.reset.allowComments = p.allowComments ∧
     p.reset.losslessNumber = p.losslessNumber ∧
     p.reset.losslessBignum = p.losslessBignum) :=
  ⟨⟨rfl, rfl, rfl, rfl, rfl, rfl, rfl, rfl⟩, ⟨rfl, rfl, rfl, rfl, rfl, rfl, rfl, rfl⟩,
   ⟨rfl, rfl, rfl, rfl, rfl, rfl⟩, ⟨rfl, rfl, rfl, rfl, rfl⟩⟩

/-- C10: whenever the tree decoder sees begin_object or begin_array while the
top of the structure stack is the root frame, it discards the accumulated
state — item stack cleared, index zero, is_valid false — before pushing the
container, so the single placeholder item is all that remains and a second
document never mixes with a previous one. -/
theorem decoder_root_begin_clears_state (d : Decoder) (tag : STag)
    (h : d.top.type = StructureType.root) :
    d.visitBeginObject tag =
      { d with index := 1, name := [],
               itemStack := [(d.name, 0, JsonValue.objectValue [] tag)], isValid := false,
               structureStack := d.structureStack ++ [⟨StructureType.object, 0⟩] } ∧
    d.visitBeginArray tag =
      { d with index := 1, name := [],
               itemStack := [(d.name, 0, JsonValue.arrayValue [] tag)], isValid := false,
               structureStack := d.structureStack ++ [⟨StructureType.array, 0⟩] } := by
  constructor <;> simp [Decoder.visitBeginObject, Decoder.visitBeginArray, h]

/-- A decoder holding leftovers of a previous document, for the C10 witness. -/
def decoderStale : Decoder :=
  { decoderNew with itemStack := [([107], 5, JsonValue.boolValue true STag.none)],
                    index := 7, isValid := true }

/-- C10 witness. -/
theorem decoder_root_begin_clears_state_witness :
    decoderStale.visitBeginObject STag.none =
      { decoderStale with
          index := 1, name := [],
          itemStack := [(decoderStale.name, 0, JsonValue.objectValue [] STag.none)],
          isValid := false,
          structureStack := decoderStale.structureStack ++ [⟨StructureType.object, 0⟩] } :=
  (decoder_root_begin_clears_state decoderStale STag.none rfl).1

/-- C8: opening a container so the nesting level becomes exactly
max_nesting_depth succeeds without error and leaves the level there; one more
raises max_nesting_depth_exceeded — for the JSON parser on both brackets and
for the CBOR encoder on both begin visitors (indefinite and definite). -/
theorem max_nesting_depth_boundary (p : Parser) (st : Cbor) (L : Nat) :
    (p.level + 1 ≤ p.maxNestingDepth →
      p.beginObjectV.ec = p.ec ∧ p.beginObjectV.level = p.level + 1 ∧
      p.beginArrayV.ec = p.ec ∧ p.beginArrayV.level = p.level + 1) ∧
    (p.maxNestingDepth < p.level + 1 →
      p.beginObjectV.ec = some JsonErrc.maxNestingDepthExceeded ∧
      p.beginArrayV.ec = some JsonErrc.maxNestingDepthExceeded) ∧
    (st.nestingDepth + 1 ≤ st.maxNestingDepth →
      st.visitBeginObject.ec = st.ec ∧ st.visitBeginObject.nestingDepth = st.nestingDepth + 1 ∧
      st.visitBeginArray.ec = st.ec ∧ st.visitBeginArray.nestingDepth = st.nestingDepth + 1 ∧
      (st.visitBeginObjectLen L).ec = st.ec ∧ (st.visitBeginArrayLen L).ec = st.ec) ∧
    (st.maxNestingDepth < st.nestingDepth + 1 →
      st.visitBeginObject.ec = some CborErrc.maxNestingDepthExceeded ∧
      st.visitBeginArray.ec = some CborErrc.maxNestingDepthExceeded ∧
      (st.visitBeginObjectLen L).ec = some CborErrc.maxNestingDepthExceeded ∧
      (st.visitBeginArrayLen L).ec = some CborErrc.maxNestingDepthExceeded) := by
  refine ⟨fun h => ?_, fun h => ?_, fun h => ?_, fun h => ?_⟩
  · have hno : ¬ (p.maxNestingDepth < p.level + 1) := by omega
    refine ⟨?_, ?_, ?_, ?_⟩ <;>
      · first
          | (simp only [Parser.beginObjectV]; rw [if_neg hno]; rfl)
          | (simp only [Parser.beginArrayV]; rw [if_neg hno]; rfl)
  · have hyes : p.maxNestingDepth < p.level + 1 := by omega
    refine ⟨?_, ?_⟩ <;>
      · first
          | (simp only [Parser.beginObjectV]; rw [if_pos hyes]; rfl)
          | (simp only [Parser.beginArrayV]; rw [if_pos hyes]; rfl)
  · have hno : ¬ (st.maxNestingDepth < st.nestingDepth + 1) := by omega
    refine ⟨?_, ?_, ?_, ?_, ?_, ?_⟩
    · simp only [Cbor.visitBeginObject]; rw [if_neg hno]; rfl
    · simp only [Cbor.visitBeginObject]; rw [if_neg hno]; rfl
    · simp only [Cbor.visitBeginArray]; rw [if_neg hno]; rfl
    · simp only [Cbor.visitBeginArray]; rw [if_neg hno]; rfl
    · simp only [Cbor.visitBeginObjectLen]; rw [if_neg hno]
      simp only [Cbor.push, Cbor.pushList]; split_ifs <;> rfl
    · simp only [Cbor.visitBeginArrayLen]; rw [if_neg hno]
      simp only [Cbor.push, Cbor.pushList]; split_ifs <;> rfl
  · have hyes : st.maxNestingDepth < st.nestingDepth + 1 := by omega
    refine ⟨?_, ?_, ?_, ?_⟩
    · simp only [Cbor.visitBeginObject]; rw [if_pos hyes]
    · simp only [Cbor.visitBeginArray]; rw [if_pos hyes]
    · simp only [Cbor.visitBeginObjectLen]; rw [if_pos hyes]
    · simp only [Cbor.visitBeginArrayLen]; rw [if_pos hyes]

/-- C8 witness: level exactly at the limit succeeds, one past fails, on both
codecs. -/
theorem max_nesting_depth_boundary_witness :
    ({ parserNew with level := 1023 }.level + 1 ≤ { parserNew with level := 1023 }.maxNestingDepth ∧
      { parserNew with level := 1023 }.beginObjectV.ec = { parserNew with level := 1023 }.ec) ∧
    ({ parserNew with level := 1024 }.maxNestingDepth < { parserNew with level := 1024 }.level + 1 ∧
      { parserNew with level := 1024 }.beginObjectV.ec = some JsonErrc.maxNestingDepthExceeded) ∧
    ((cborMk {}).visitBeginObject.ec = (cborMk {}).ec) ∧
    ({ cborMk {} with nestingDepth := 1024 }.visitBeginArray.ec
      = some CborErrc.maxNestingDepthExceeded) :=
  ⟨⟨by decide, ((max_nesting_depth_boundary { parserNew with level := 1023 } (cborMk {}) 0).1
      (by decide)).1⟩,
   ⟨by decide, ((max_nesting_depth_boundary { parserNew with level := 1024 } (cborMk {}) 0).2.1
      (by decide)).1⟩,
   ((max_nesting_depth_boundary parserNew (cborMk {}) 0).2.2.1 (by decide)).1,
   (((max_nesting_depth_boundary parserNew { cborMk {} with nestingDepth := 1024 } 0).2.2.2
      (by decide)).2.1)⟩

/-- append_to_codepoint on a hexadecimal digit: no error, the accumulator is
shifted by one hex place. -/
theorem appendToCodepoint_hex (p : Parser) (cp c : Nat) (h : isHexDigitChar c = true) :
    p.appendToCodepoint cp c = (p, cp * 16 + hexVal c) := by
  simp only [isHexDigitChar, decide_eq_true_eq] at h
  unfold Parser.appendToCodepoint hexVal
  split_ifs <;> first | rfl | omega

/-- C4 counterexample: after the high-surrogate escape for 0xD800, the escape
for 0x0041 — not a low surrogate — is accepted rather than rejected: the
document consisting of the string with those two escapes parses without error
to the single codepoint 0x10000 + 0 + 0x41 = 0x10041 (UTF-8 f0 90 81 81). -/
theorem high_surrogate_pair_accepts_non_low_surrogate :
    (runDoc [[34, 92, 117, 68, 56, 48, 48, 92, 117, 48, 48, 52, 49, 34]]).ec = Option.none ∧
    (runDoc [[34, 92, 117, 68, 56, 48, 48, 92, 117, 48, 48, 52, 49, 34]]).events
      = [Event.stringValue [240, 144, 129, 129] STag.none, Event.flush] := by
  exact ⟨rfl, rfl⟩

/-- C4 amended: a high-surrogate escape must be followed by a backslash and a
u — anything else raises expected_codepoint_surrogate_pair — and the four
following hex digits are then combined as 0x10000 plus the low ten bits of
each codepoint, with no check that the second escape lies in the
low-surrogate range. -/
theorem surrogate_pair_combination_amended (p : Parser) (fuel cur sb : Nat)
    (hcur : cur < p.input.length) :
    (p.input.getD cur 0 ≠ 92 →
      (parseStringGo (fuel+1) SState.escapeExpectSurrogatePair1 p cur sb).ec
        = some JsonErrc.expectedCodepointSurrogatePair) ∧
    (p.input.getD cur 0 ≠ 117 →
      (parseStringGo (fuel+1) SState.escapeExpectSurrogatePair2 p cur sb).ec
        = some JsonErrc.expectedCodepointSurrogatePair) ∧
    (p.ec = Option.none → isHexDigitChar (p.input.getD cur 0) = true →
      parseStringGo (fuel+1) SState.escapeU8 p cur sb
        = parseStringGo fuel SState.text
            { p with cp2 := p.cp2 * 16 + hexVal (p.input.getD cur 0),
                     buffer := p.buffer ++ utf8Encode (0x10000 + (p.cp % 1024) * 1024 +
                       ((p.cp2 * 16 + hexVal (p.input.getD cur 0)) % 1024)),
                     pos := p.pos + 1 }
            (cur+1) (cur+1)) := by
  refine ⟨fun h => ?_, fun h => ?_, fun hec hx => ?_⟩
  · unfold parseStringGo
    rw [if_neg (by omega), if_neg h]
    rfl
  · unfold parseStringGo
    rw [if_neg (by omega), if_neg h]
    rfl
  · conv_lhs => rw [parseStringGo]
    rw [if_neg (by omega), appendToCodepoint_hex p p.cp2 _ hx]
    simp only [hec]
    rw [if_neg (fun hne => hne rfl)]

/-- C4 witness: the amendment applied at the counterexample state — high
surrogate 0xD800 pending, second escape digit sequence ending in 1. -/
theorem surrogate_pair_combination_amended_witness :
    (let q : Parser := { parserNew with cp := 0xD800, cp2 := 4, input := [49, 34], ip := 0 }
     parseStringGo 3 SState.escapeU8 q 0 0
       = parseStringGo 2 SState.text
           { q with cp2 := 4 * 16 + hexVal 49,
                    buffer := q.buffer ++ utf8Encode (0x10000 + (q.cp % 1024) * 1024 +
                      ((4 * 16 + hexVal 49) % 1024)),
                    pos := q.pos + 1 }
           1 1) :=
  (surrogate_pair_combination_amended _ 2 0 0 (by decide)).2.2 rfl (by decide)

theorem pair_step (st : Cbor) (it : CborItem) (h : st.stack = [it])
    (hpk : st.packStrings = false) :
    ((st.visitKey [97]).visitBool true).stack = [{ it with index := it.index + 2 }] ∧
    ((st.visitKey [97]).visitBool true).ec = st.ec ∧
    ((st.visitKey [97]).visitBool true).packStrings = false := by
  simp [Cbor.visitKey, Cbor.visitString, Cbor.writeString, hpk, utf8Validate, utf8ValidateGo,
        Cbor.writeUtf8String, Cbor.push, Cbor.pushList, Cbor.visitBool, Cbor.endValue, h]

theorem emitPairs_stack (N : Nat) (st : Cbor) (it : CborItem) (h : st.stack = [it])
    (hpk : st.packStrings = false) :
    (emitPairs N st).stack = [{ it with index := it.index + 2 * N }] ∧
    (emitPairs N st).ec = st.ec := by
  induction N generalizing st it with
  | zero => simpa [emitPairs] using h
  | succ k ih =>
    obtain ⟨h1, h2, h3⟩ := pair_step st it h hpk
    obtain ⟨ih1, ih2⟩ := ih ((st.visitKey [97]).visitBool true) _ h1 h3
    refine ⟨?_, by rw [emitPairs, ih2, h2]⟩
    rw [emitPairs, ih1]
    have : it.index + 2 + 2 * k = it.index + 2 * (k + 1) := by ring
    simp [this]

theorem elem_step (st : Cbor) (it : CborItem) (h : st.stack = [it]) :
    (st.visitBool true).stack = [{ it with index := it.index + 1 }] ∧
    (st.visitBool true).ec = st.ec ∧ (st.visitBool true).packStrings = st.packStrings := by
  simp [Cbor.visitBool, Cbor.push, Cbor.endValue, h]

theorem emitElems_stack (N : Nat) (st : Cbor) (it : CborItem) (h : st.stack = [it]) :
    (emitElems N st).stack = [{ it with index := it.index + N }] ∧
    (emitElems N st).ec = st.ec := by
  induction N generalizing st it with
  | zero => simpa [emitElems] using h
  | succ k ih =>
    obtain ⟨h1, h2, _⟩ := elem_step st it h
    obtain ⟨ih1, ih2⟩ := ih (st.visitBool true) _ h1
    refine ⟨?_, by rw [emitElems, ih2, h2]⟩
    rw [emitElems, ih1]
    have : it.index + 1 + k = it.index + (k + 1) := by ring
    simp [this]

theorem endObject_definite (st : Cbor) (L k : Nat)
    (h : st.stack = [CborItem.mk CborContainerType.object L k]) :
    st.visitEndObject.ec =
      if k / 2 < L then some CborErrc.tooFewItems
      else if L < k / 2 then some CborErrc.tooManyItems
      else st.ec := by
  simp only [Cbor.visitEndObject, h]
  simp [CborItem.isIndefiniteLength, CborItem.count, CborItem.isObject, Cbor.endValue]
  split_ifs <;> rfl

theorem endArray_definite (st : Cbor) (L k : Nat)
    (h : st.stack = [CborItem.mk CborContainerType.array L k]) :
    st.visitEndArray.ec =
      if k < L then some CborErrc.tooFewItems
      else if L < k then some CborErrc.tooManyItems
      else st.ec := by
  simp only [Cbor.visitEndArray, h]
  simp [CborItem.isIndefiniteLength, CborItem.count, CborItem.isObject, Cbor.endValue]
  split_ifs <;> rfl

theorem beginObjectLen_state (L : Nat) :
    ((cborMk {}).visitBeginObjectLen L).stack = [CborItem.mk CborContainerType.object L 0] ∧
    ((cborMk {}).visitBeginObjectLen L).ec = Option.none ∧
    ((cborMk {}).visitBeginObjectLen L).packStrings = false := by
  simp only [Cbor.visitBeginObjectLen, cborMk, Cbor.push, Cbor.pushList]
  norm_num
  refine ⟨?_, ?_, ?_⟩ <;> (split_ifs <;> rfl)

theorem beginArrayLen_state (L : Nat) :
    ((cborMk {}).visitBeginArrayLen L).stack = [CborItem.mk CborContainerType.array L 0] ∧
    ((cborMk {}).visitBeginArrayLen L).ec = Option.none := by
  simp only [Cbor.visitBeginArrayLen, cborMk, Cbor.push, Cbor.pushList]
  norm_num
  refine ⟨?_, ?_⟩ <;> (split_ifs <;> rfl)

/-- C6: for a definite-length container declared with length L, the close
succeeds exactly when L children were emitted inside it, reports
too_few_items below and too_many_items above — counting a key and its value
as one child of an object. -/
theorem definite_length_container_count_enforced (L N : Nat) :
    ((emitPairs N ((cborMk {}).visitBeginObjectLen L)).visitEndObject.ec = Option.none ↔ N = L) ∧
    ((emitPairs N ((cborMk {}).visitBeginObjectLen L)).visitEndObject.ec
      = some CborErrc.tooFewItems ↔ N < L) ∧
    ((emitPairs N ((cborMk {}).visitBeginObjectLen L)).visitEndObject.ec
      = some CborErrc.tooManyItems ↔ L < N) ∧
    ((emitElems N ((cborMk {}).visitBeginArrayLen L)).visitEndArray.ec = Option.none ↔ N = L) ∧
    ((emitElems N ((cborMk {}).visitBeginArrayLen L)).visitEndArray.ec
      = some CborErrc.tooFewItems ↔ N < L) ∧
    ((emitElems N ((cborMk {}).visitBeginArrayLen L)).visitEndArray.ec
      = some CborErrc.tooManyItems ↔ L < N) := by
  obtain ⟨ho1, ho2, ho3⟩ := beginObjectLen_state L
  obtain ⟨hp1, hp2⟩ := emitPairs_stack N _ _ ho1 ho3
  obtain ⟨ha1, ha2⟩ := beginArrayLen_state L
  obtain ⟨he1, he2⟩ := emitElems_stack N _ _ ha1
  have hofin := endObject_definite _ L (0 + 2 * N) hp1
  have hafin := endArray_definite _ L (0 + N) he1
  rw [hp2, ho2] at hofin
  rw [he2, ha2] at hafin
  have hdiv : (0 + 2 * N) / 2 = N := by omega
  rw [hdiv] at hofin
  have hN : 0 + N = N := by omega
  rw [hN] at hafin
  rw [hofin, hafin]
  refine ⟨?_, ?_, ?_, ?_, ?_, ?_⟩ <;> split_ifs <;> simp <;> omega

/-- The tag-25 reference bytes: tag 25 is written as 0xd8 0x19. -/
theorem writeTag25_bytes (st : Cbor) (idx : Nat) :
    ((st.writeTag 25).writeUint64Value idx).sink = st.sink ++ [0xd8, 25] ++ cborUintBytes idx := by
  rw [sink_writeUint64]
  simp [Cbor.writeTag, Cbor.push]

theorem assocFind_append_self (l : List (List Nat × Nat)) (s : List Nat) (v : Nat)
    (h : assocFind l s = Option.none) : assocFind (l ++ [(s, v)]) s = some v := by
  induction l with
  | nil => simp [assocFind]
  | cons kv rest ih =>
    rw [assocFind] at h
    by_cases hk : kv.1 = s
    · rw [if_pos hk] at h
      cases h
    · rw [List.cons_append, assocFind, if_neg hk]
      exact ih (by rwa [if_neg hk] at h)

theorem writeUtf8String_frame (st : Cbor) (sv : List Nat) :
    (st.writeUtf8String sv).stringrefMap = st.stringrefMap ∧
    (st.writeUtf8String sv).bytestringrefMap = st.bytestringrefMap ∧
    (st.writeUtf8String sv).nextStringref = st.nextStringref ∧
    (st.writeUtf8String sv).stack = st.stack ∧
    (st.writeUtf8String sv).ec = st.ec := by
  simp only [Cbor.writeUtf8String, Cbor.push, Cbor.pushList]
  split_ifs <;> exact ⟨rfl, rfl, rfl, rfl, rfl⟩

theorem writeByteString_frame (st : Cbor) (b : List Nat) :
    (st.writeByteString b).stringrefMap = st.stringrefMap ∧
    (st.writeByteString b).stack = st.stack ∧
    (st.writeByteString b).bytestringrefMap = st.bytestringrefMap ∧
    (st.writeByteString b).nextStringref = st.nextStringref ∧
    (st.writeByteString b).ec = st.ec := by
  simp only [Cbor.writeByteString, Cbor.push, Cbor.pushList]
  split_ifs <;> exact ⟨rfl, rfl, rfl, rfl, rfl⟩

theorem writeTagUint_frame (st : Cbor) (v idx : Nat) :
    ((st.writeTag v).writeUint64Value idx).stringrefMap = st.stringrefMap ∧
    ((st.writeTag v).writeUint64Value idx).bytestringrefMap = st.bytestringrefMap ∧
    ((st.writeTag v).writeUint64Value idx).nextStringref = st.nextStringref := by
  simp only [Cbor.writeTag, Cbor.writeUint64Value, Cbor.push, Cbor.pushList]
  split_ifs <;> exact ⟨rfl, rfl, rfl⟩

theorem endValue_frame (st : Cbor) :
    st.endValue.sink = st.sink ∧ st.endValue.stringrefMap = st.stringrefMap ∧
    st.endValue.bytestringrefMap = st.bytestringrefMap ∧
    st.endValue.nextStringref = st.nextStringref := by
  cases h : st.stack.getLast? <;> simp [Cbor.endValue, h]

/-- C7: with pack_strings on, a string or byte string is a reference
candidate exactly when its length reaches min_length_for_stringref of the
next index; the first occurrence of a candidate is written literally and is
assigned the next index (a counter shared between the string and byte-string
maps), and a later occurrence of an equal candidate is written as tag 25
followed by the assigned index; a non-candidate is always written literally
with no map change. -/
theorem stringref_packing_assignment (st : Cbor) (sv : List Nat)
    (hpk : st.packStrings = true) (hv : utf8Validate sv = Option.none) :
    (minLengthForStringref st.nextStringref ≤ sv.length →
      (assocFind st.stringrefMap sv = Option.none →
        (st.writeString sv).sink = st.sink ++ cborUtf8StringBytes sv ∧
        assocFind (st.writeString sv).stringrefMap sv = some st.nextStringref ∧
        (st.writeString sv).nextStringref = st.nextStringref + 1) ∧
      (∀ idx, assocFind st.stringrefMap sv = some idx →
        (st.writeString sv).sink = st.sink ++ [0xd8, 25] ++ cborUintBytes idx ∧
        (st.writeString sv).stringrefMap = st.stringrefMap ∧
        (st.writeString sv).nextStringref = st.nextStringref)) ∧
    (sv.length < minLengthForStringref st.nextStringref →
      (st.writeString sv).sink = st.sink ++ cborUtf8StringBytes sv ∧
      (st.writeString sv).stringrefMap = st.stringrefMap ∧
      (st.writeString sv).nextStringref = st.nextStringref) ∧
    (minLengthForStringref st.nextStringref ≤ sv.length →
      (assocFind st.bytestringrefMap sv = Option.none →
        (st.visitByteString sv STag.none).sink = st.sink ++ cborByteStringBytes sv ∧
        assocFind (st.visitByteString sv STag.none).bytestringrefMap sv
          = some st.nextStringref ∧
        (st.visitByteString sv STag.none).nextStringref = st.nextStringref + 1) ∧
      (∀ idx, assocFind st.bytestringrefMap sv = some idx →
        (st.visitByteString sv STag.none).sink = st.sink ++ [0xd8, 25] ++ cborUintBytes idx ∧
        (st.visitByteString sv STag.none).bytestringrefMap = st.bytestringrefMap ∧
        (st.visitByteString sv STag.none).nextStringref = st.nextStringref)) ∧
    (sv.length < minLengthForStringref st.nextStringref →
      (st.visitByteString sv STag.none).sink = st.sink ++ cborByteStringBytes sv ∧
      (st.visitByteString sv STag.none).bytestringrefMap = st.bytestringrefMap ∧
      (st.visitByteString sv STag.none).nextStringref = st.nextStringref) := by
  have hpk2 : (st.packStrings : Prop) := by rw [hpk]
  refine ⟨fun hlen => ⟨fun hnew => ?_, fun idx hdup => ?_⟩, fun hshort => ?_,
          fun hlen => ⟨fun hnew => ?_, fun idx hdup => ?_⟩, fun hshort => ?_⟩
  · unfold Cbor.writeString
    rw [hv, if_pos ⟨hpk2, hlen⟩, hnew]
    obtain ⟨m1, -, n1, -, -⟩ := writeUtf8String_frame
      { st with stringrefMap := st.stringrefMap ++ [(sv, st.nextStringref)],
                nextStringref := st.nextStringref + 1 } sv
    rw [sink_writeUtf8String, m1, n1]
    exact ⟨rfl, assocFind_append_self _ _ _ hnew, rfl⟩
  · unfold Cbor.writeString
    rw [hv, if_pos ⟨hpk2, hlen⟩, hdup]
    obtain ⟨m1, -, n1⟩ := writeTagUint_frame st 25 idx
    rw [writeTag25_bytes, m1, n1]
    exact ⟨rfl, rfl, rfl⟩
  · unfold Cbor.writeString
    rw [hv, if_neg (by rintro ⟨-, hc⟩; omega)]
    obtain ⟨m1, -, n1, -, -⟩ := writeUtf8String_frame st sv
    rw [sink_writeUtf8String, m1, n1]
    exact ⟨rfl, rfl, rfl⟩
  · unfold Cbor.visitByteString
    dsimp only
    rw [if_pos ⟨hpk2, hlen⟩, hnew]
    obtain ⟨s1, -, m2, n1, k1⟩ := writeByteString_frame
      { st with bytestringrefMap := st.bytestringrefMap ++ [(sv, st.nextStringref)],
                nextStringref := st.nextStringref + 1 } sv
    obtain ⟨e1, -, e2, e3⟩ := endValue_frame
      (Cbor.writeByteString
        { st with bytestringrefMap := st.bytestringrefMap ++ [(sv, st.nextStringref)],
                  nextStringref := st.nextStringref + 1 } sv)
    rw [e1, e2, e3, sink_writeByteString, m2, n1]
    exact ⟨rfl, assocFind_append_self _ _ _ hnew, rfl⟩
  · unfold Cbor.visitByteString
    dsimp only
    rw [if_pos ⟨hpk2, hlen⟩, hdup]
    obtain ⟨e1, -, e2, e3⟩ := endValue_frame ((st.writeTag 25).writeUint64Value idx)
    obtain ⟨-, m2, n1⟩ := writeTagUint_frame st 25 idx
    rw [e1, e2, e3, writeTag25_bytes, m2, n1]
    exact ⟨rfl, rfl, rfl⟩
  · unfold Cbor.visitByteString
    dsimp only
    rw [if_neg (by rintro ⟨-, hc⟩; omega)]
    obtain ⟨e1, -, e2, e3⟩ := endValue_frame (st.writeByteString sv)
    obtain ⟨-, -, m2, n1, -⟩ := writeByteString_frame st sv
    rw [e1, e2, e3, sink_writeByteString, m2, n1]
    exact ⟨rfl, rfl, rfl⟩

/-- C7 witness: the first occurrence of the three-character string abc on a
fresh packing encoder is written literally and assigned index 0. -/
theorem stringref_packing_assignment_witness :
    ((cborMk { packStrings := true }).writeString [97, 98, 99]).sink
        = (cborMk { packStrings := true }).sink ++ cborUtf8StringBytes [97, 98, 99] ∧
      assocFind ((cborMk { packStrings := true }).writeString [97, 98, 99]).stringrefMap
          [97, 98, 99]
        = some (cborMk { packStrings := true }).nextStringref ∧
      ((cborMk { packStrings := true }).writeString [97, 98, 99]).nextStringref
        = (cborMk { packStrings := true }).nextStringref + 1 :=
  ((stringref_packing_assignment (cborMk { packStrings := true }) [97, 98, 99]
      (by decide) (by decide)).1 (by decide)).1 (by decide)

/-! Support for the float-narrowing claim: correctness of the binary
logarithm, the rounding kernel on exactly representable values, and the value
semantics of the packing helpers. -/

theorem size_lower (n : Nat) (h : 0 < n) : 2 ^ (n.size - 1) ≤ n := by
  refine Nat.lt_size.mp ?_
  have := Nat.size_pos.mpr h
  omega

/-- A power of two with an integer exponent as a quotient of Nat powers. -/
theorem zpow_toNat_div (e : Int) :
    (2 : ℚ) ^ e = (2 ^ e.toNat : ℕ) / (2 ^ (-e).toNat : ℕ) := by
  rw [eq_div_iff (by positivity)]
  push_cast
  rw [← zpow_natCast (2 : ℚ) e.toNat, ← zpow_natCast (2 : ℚ) (-e).toNat,
      ← zpow_add₀ (by norm_num : (2 : ℚ) ≠ 0)]
  congr 1
  omega

theorem zpow_pos2 (e : Int) : (0 : ℚ) < 2 ^ e := zpow_pos (by norm_num) e

/-- The dyadic quotient appearing in cast_to_f32 equals m 2^E. -/
theorem dyadic_div (m : Nat) (E : Int) :
    ((m * 2 ^ E.toNat : ℕ) : ℚ) / ((2 ^ (-E).toNat : ℕ) : ℚ) = (m : ℚ) * 2 ^ E := by
  rw [div_eq_iff (by positivity)]
  push_cast
  rw [← zpow_natCast (2 : ℚ) E.toNat, ← zpow_natCast (2 : ℚ) (-E).toNat, mul_assoc,
      ← zpow_add₀ (by norm_num : (2 : ℚ) ≠ 0)]
  congr 1
  congr 1
  omega

/-- Correctness of ilog2Rat: the result e satisfies 2^e ≤ a/b < 2^(e+1). -/
theorem ilog2Rat_bounds (a b : Nat) (ha : 0 < a) (hb : 0 < b) :
    (2 : ℚ) ^ ilog2Rat a b ≤ (a : ℚ) / b ∧ ((a : ℚ) / b) < 2 ^ (ilog2Rat a b + 1) := by
  have hbq : (0 : ℚ) < (b : ℚ) := by exact_mod_cast hb
  have hsa1 : ((a : ℚ)) < 2 ^ (a.size : ℤ) := by
    rw [zpow_natCast]
    exact_mod_cast Nat.lt_size_self a
  have hsa0 : (2 : ℚ) ^ ((a.size : ℤ) - 1) ≤ (a : ℚ) := by
    have h1 := size_lower a ha
    have hpos := Nat.size_pos.mpr ha
    calc (2 : ℚ) ^ ((a.size : ℤ) - 1) = 2 ^ ((a.size - 1 : ℕ) : ℤ) := by
          congr 1
          omega
      _ = ((2 ^ (a.size - 1) : ℕ) : ℚ) := by rw [zpow_natCast]; push_cast; ring
      _ ≤ (a : ℚ) := by exact_mod_cast h1
  have hsb1 : ((b : ℚ)) < 2 ^ (b.size : ℤ) := by
    rw [zpow_natCast]
    exact_mod_cast Nat.lt_size_self b
  have hsb0 : (2 : ℚ) ^ ((b.size : ℤ) - 1) ≤ (b : ℚ) := by
    have h1 := size_lower b hb
    have hpos := Nat.size_pos.mpr hb
    calc (2 : ℚ) ^ ((b.size : ℤ) - 1) = 2 ^ ((b.size - 1 : ℕ) : ℤ) := by
          congr 1
          omega
      _ = ((2 ^ (b.size - 1) : ℕ) : ℚ) := by rw [zpow_natCast]; push_cast; ring
      _ ≤ (b : ℚ) := by exact_mod_cast h1
  set e0 : Int := (a.size : ℤ) - (b.size : ℤ) with he0
  have hge : (if 0 ≤ e0 then decide (b * 2 ^ e0.toNat ≤ a) else decide (b ≤ a * 2 ^ (-e0).toNat))
      = true ↔ (b : ℚ) * 2 ^ e0 ≤ (a : ℚ) := by
    rcases le_or_lt 0 e0 with h0 | h0
    · rw [if_pos h0, decide_eq_true_eq]
      have hcast : ((b * 2 ^ e0.toNat : ℕ) : ℚ) = (b : ℚ) * 2 ^ e0 := by
        push_cast
        rw [← zpow_natCast (2 : ℚ) e0.toNat, Int.toNat_of_nonneg h0]
      constructor
      · intro h
        rw [← hcast]
        exact_mod_cast h
      · intro h
        rw [← hcast] at h
        exact_mod_cast h
    · rw [if_neg (by omega), decide_eq_true_eq]
      have hcast : ((a * 2 ^ (-e0).toNat : ℕ) : ℚ) = (a : ℚ) * 2 ^ (-e0) := by
        push_cast
        rw [← zpow_natCast (2 : ℚ) (-e0).toNat, Int.toNat_of_nonneg (by omega)]
      have hiff : (b : ℚ) ≤ (a : ℚ) * 2 ^ (-e0) ↔ (b : ℚ) * 2 ^ e0 ≤ (a : ℚ) := by
        constructor
        · intro h
          have h3 := mul_le_mul_of_nonneg_right h (le_of_lt (zpow_pos2 e0))
          calc (b : ℚ) * 2 ^ e0 ≤ (a : ℚ) * 2 ^ (-e0) * 2 ^ e0 := h3
            _ = (a : ℚ) := by
                rw [mul_assoc, ← zpow_add₀ (by norm_num : (2 : ℚ) ≠ 0)]
                simp
        · intro h
          have h3 := mul_le_mul_of_nonneg_right h (le_of_lt (zpow_pos2 (-e0)))
          calc (b : ℚ) = (b : ℚ) * 2 ^ e0 * 2 ^ (-e0) := by
                rw [mul_assoc, ← zpow_add₀ (by norm_num : (2 : ℚ) ≠ 0)]
                simp
            _ ≤ (a : ℚ) * 2 ^ (-e0) := h3
      constructor
      · intro h
        refine hiff.mp ?_
        rw [← hcast]
        exact_mod_cast h
      · intro h
        have h2 := hiff.mpr h
        rw [← hcast] at h2
        exact_mod_cast h2
  have hdef : ilog2Rat a b =
      if (if 0 ≤ e0 then decide (b * 2 ^ e0.toNat ≤ a) else decide (b ≤ a * 2 ^ (-e0).toNat))
          = true
      then e0 else e0 - 1 := rfl
  by_cases hc : (b : ℚ) * 2 ^ e0 ≤ (a : ℚ)
  · rw [hdef, if_pos (hge.mpr hc)]
    constructor
    · rw [le_div_iff hbq]
      linarith [hc]
    · rw [div_lt_iff hbq]
      calc (a : ℚ) < 2 ^ (a.size : ℤ) := hsa1
        _ = 2 ^ (e0 + 1) * 2 ^ ((b.size : ℤ) - 1) := by
            rw [← zpow_add₀ (by norm_num : (2 : ℚ) ≠ 0)]
            congr 1
            omega
        _ ≤ 2 ^ (e0 + 1) * b := by
            exact mul_le_mul_of_nonneg_left hsb0 (le_of_lt (zpow_pos2 (e0 + 1)))
  · have hcond : ¬ ((if 0 ≤ e0 then decide (b * 2 ^ e0.toNat ≤ a)
        else decide (b ≤ a * 2 ^ (-e0).toNat)) = true) := fun hh => hc (hge.mp hh)
    rw [hdef, if_neg hcond]
    push_neg at hc
    constructor
    · rw [le_div_iff hbq]
      have hstep : 2 ^ (e0 - 1) * (b : ℚ) < (a : ℚ) :=
        calc 2 ^ (e0 - 1) * (b : ℚ) < 2 ^ (e0 - 1) * 2 ^ (b.size : ℤ) :=
              mul_lt_mul_of_pos_left hsb1 (zpow_pos2 (e0 - 1))
          _ = 2 ^ ((a.size : ℤ) - 1) := by
              rw [← zpow_add₀ (by norm_num : (2 : ℚ) ≠ 0)]
              congr 1
              omega
          _ ≤ (a : ℚ) := hsa0
      exact hstep.le
    · rw [div_lt_iff hbq]
      have h1 : e0 - 1 + 1 = e0 := by omega
      rw [h1]
      linarith [hc]

theorem roundHalfEvenDiv_exact (den q : Nat) (hden : 0 < den) :
    roundHalfEvenDiv (den * q) den = q := by
  have h1 : den * q / den = q := Nat.mul_div_cancel_left q hden
  have h2 : den * q % den = 0 := Nat.mul_mod_right den q
  simp only [roundHalfEvenDiv, h1, h2]
  split_ifs <;> omega

theorem roundHalfEvenDiv_le (num den : Nat) :
    roundHalfEvenDiv num den ≤ num / den + 1 := by
  simp only [roundHalfEvenDiv]
  split_ifs <;> omega

theorem roundHalfEvenDiv_ge (num den : Nat) :
    num / den ≤ roundHalfEvenDiv num den := by
  simp only [roundHalfEvenDiv]
  split_ifs <;> omega

/-- The quotient fed to the rounding division: num over den is the input
value scaled by 2^(-g). -/
theorem roundPos_num_den (a b : Nat) (g : Int) :
    ((a * 2 ^ (-g).toNat : ℕ) : ℚ) / ((b * 2 ^ g.toNat : ℕ) : ℚ)
      = ((a : ℚ) / b) * 2 ^ (-g) := by
  rw [zpow_toNat_div (-g), neg_neg, div_mul_div_comm]
  push_cast
  ring

/-- A cleared overflow check bounds the value below 2^emaxP. -/
theorem value_below_ovf (n1 : Nat) (g1 emaxP : Int) (hgle : g1 ≤ emaxP)
    (hlt : n1 < 2 ^ (emaxP - g1).toNat) : (n1 : ℚ) * 2 ^ g1 < 2 ^ emaxP := by
  have hltq : (n1 : ℚ) < 2 ^ (emaxP - g1) := by
    calc (n1 : ℚ) < ((2 ^ (emaxP - g1).toNat : ℕ) : ℚ) := by exact_mod_cast hlt
      _ = 2 ^ (emaxP - g1) := by
          push_cast
          rw [← zpow_natCast (2 : ℚ) (emaxP - g1).toNat]
          congr 1
          omega
  calc (n1 : ℚ) * 2 ^ g1 < 2 ^ (emaxP - g1) * 2 ^ g1 :=
        mul_lt_mul_of_pos_right hltq (zpow_pos2 g1)
    _ = 2 ^ emaxP := by
        rw [← zpow_add₀ (by norm_num : (2 : ℚ) ≠ 0)]
        congr 1
        omega

/-- General shape of a successful rounding: the mantissa fits the precision,
the exponent respects the minimum, the result is normal or at the minimum
exponent, and the value is below the overflow threshold. -/
theorem roundPosRat_bounds (prec : Nat) (eminSub emaxP : Int) (a b n : Nat) (g : Int)
    (hprec : 0 < prec) (ha : 0 < a) (hb : 0 < b)
    (hres : roundPosRat prec eminSub emaxP a b = some (n, g)) :
    n < 2 ^ prec ∧ eminSub ≤ g ∧ (2 ^ (prec - 1) ≤ n ∨ g = eminSub) ∧
      ((n : ℚ) * 2 ^ g < 2 ^ emaxP) := by
  have hbq : (0 : ℚ) < (b : ℚ) := by exact_mod_cast hb
  obtain ⟨hlo, hhi⟩ := ilog2Rat_bounds a b ha hb
  simp only [roundPosRat] at hres
  set e := ilog2Rat a b with he
  set g0 : Int := max eminSub (e - ((prec : Int) - 1)) with hg0
  set num := a * 2 ^ (-g0).toNat with hnum
  set den := b * 2 ^ g0.toNat with hden
  set n0 := roundHalfEvenDiv num den with hn0def
  have hdenpos : 0 < den := by rw [hden]; positivity
  have hg0emin : eminSub ≤ g0 := le_max_left _ _
  have hval : ((num : ℕ) : ℚ) / ((den : ℕ) : ℚ) = ((a : ℚ) / b) * 2 ^ (-g0) := by
    rw [hnum, hden]
    exact roundPos_num_den a b g0
  have hfloorlt : n0 ≤ 2 ^ prec := by
    have hqlt : ((a : ℚ) / b) * 2 ^ (-g0) < 2 ^ (prec : ℤ) := by
      calc ((a : ℚ) / b) * 2 ^ (-g0) < 2 ^ (e + 1) * 2 ^ (-g0) :=
            mul_lt_mul_of_pos_right hhi (zpow_pos2 (-g0))
        _ = 2 ^ (e + 1 - g0) := by
            rw [← zpow_add₀ (by norm_num : (2 : ℚ) ≠ 0), sub_eq_add_neg]
        _ ≤ 2 ^ (prec : ℤ) := by
            apply zpow_le_zpow_right₀ (by norm_num)
            omega
    have hnumlt : num < den * 2 ^ prec := by
      have hc : ((num : ℕ) : ℚ) < ((den * 2 ^ prec : ℕ) : ℚ) := by
        rw [div_eq_iff (by positivity : ((den : ℕ) : ℚ) ≠ 0)] at hval
        push_cast
        rw [hval]
        calc ((a : ℚ) / b) * 2 ^ (-g0) * den < 2 ^ (prec : ℤ) * den := by
              apply mul_lt_mul_of_pos_right hqlt
              exact_mod_cast hdenpos
          _ = (den : ℚ) * 2 ^ (prec : ℕ) := by
              rw [zpow_natCast]
              ring
      exact_mod_cast hc
    have hdiv : num / den < 2 ^ prec := Nat.div_lt_of_lt_mul (by omega)
    have := roundHalfEvenDiv_le num den
    omega
  by_cases hcr : n0 = 2 ^ prec
  · simp only [if_pos hcr] at hres
    by_cases hgle : g0 + 1 ≤ emaxP
    case neg =>
      rw [if_neg hgle] at hres
      exact absurd hres (by simp)
    rw [if_pos hgle] at hres
    by_cases hdec : decide (2 ^ (emaxP - (g0 + 1)).toNat ≤ 2 ^ (prec - 1)) = true
    case pos =>
      rw [if_pos hdec] at hres
      exact absurd hres (by simp)
    rw [if_neg hdec] at hres
    have h1 := (Option.some.injEq _ _).mp hres
    have h2 : 2 ^ (prec - 1) = n := congrArg Prod.fst h1
    have h3 : g0 + 1 = g := congrArg Prod.snd h1
    subst h2
    subst h3
    have hlt := Nat.lt_of_not_le (fun h => hdec (decide_eq_true h))
    refine ⟨Nat.pow_lt_pow_right (by norm_num) (by omega), by omega, Or.inl le_rfl,
      value_below_ovf _ _ _ hgle hlt⟩
  · simp only [if_neg hcr] at hres
    by_cases hgle : g0 ≤ emaxP
    case neg =>
      rw [if_neg hgle] at hres
      exact absurd hres (by simp)
    rw [if_pos hgle] at hres
    by_cases hdec : decide (2 ^ (emaxP - g0).toNat ≤ n0) = true
    case pos =>
      rw [if_pos hdec] at hres
      exact absurd hres (by simp)
    rw [if_neg hdec] at hres
    have h1 := (Option.some.injEq _ _).mp hres
    have h2 : n0 = n := congrArg Prod.fst h1
    have h3 : g0 = g := congrArg Prod.snd h1
    subst h2
    subst h3
    have hlt := Nat.lt_of_not_le (fun h => hdec (decide_eq_true h))
    refine ⟨by omega, hg0emin, ?_, value_below_ovf _ _ _ hgle hlt⟩
    by_cases hg0e : g0 = eminSub
    · exact Or.inr hg0e
    · refine Or.inl ?_
      have hg0eq : g0 = e - ((prec : Int) - 1) := by omega
      have hqge : (2 : ℚ) ^ ((prec : Int) - 1) ≤ ((a : ℚ) / b) * 2 ^ (-g0) := by
        calc (2 : ℚ) ^ ((prec : Int) - 1) = 2 ^ e * 2 ^ (-g0) := by
              rw [← zpow_add₀ (by norm_num : (2 : ℚ) ≠ 0)]
              congr 1
              omega
          _ ≤ ((a : ℚ) / b) * 2 ^ (-g0) :=
              mul_le_mul_of_nonneg_right hlo (zpow_pos2 (-g0)).le
      have hnumge : den * 2 ^ (prec - 1) ≤ num := by
        have hc : ((den * 2 ^ (prec - 1) : ℕ) : ℚ) ≤ ((num : ℕ) : ℚ) := by
          rw [div_eq_iff (by positivity : ((den : ℕ) : ℚ) ≠ 0)] at hval
          push_cast
          rw [hval]
          calc (den : ℚ) * 2 ^ (prec - 1 : ℕ) = 2 ^ ((prec : Int) - 1) * den := by
                rw [← zpow_natCast (2 : ℚ) (prec - 1)]
                rw [mul_comm]
                congr 2
                omega
            _ ≤ ((a : ℚ) / b) * 2 ^ (-g0) * den :=
                mul_le_mul_of_nonneg_right hqge (by exact_mod_cast hdenpos.le)
        exact_mod_cast hc
      have hdivge : 2 ^ (prec - 1) ≤ num / den :=
        (Nat.le_div_iff_mul_le hdenpos).mpr (by rw [Nat.mul_comm]; exact hnumge)
      exact le_trans hdivge (roundHalfEvenDiv_ge num den)

/-- Exactness of the rounding kernel: an input that is already representable
with the target precision and exponent range is returned unchanged in value. -/
theorem roundPosRat_exact (prec : Nat) (eminSub emaxP : Int) (a b nr : Nat) (er : Int)
    (hprec : 0 < prec) (ha : 0 < a) (hb : 0 < b) (hnr : 0 < nr)
    (hvq : (a : ℚ) / b = (nr : ℚ) * 2 ^ er)
    (hn : nr < 2 ^ prec) (hemin : eminSub ≤ er) (hmax : ((a : ℚ) / b) < 2 ^ emaxP) :
    ∃ n : Nat, ∃ g : Int, roundPosRat prec eminSub emaxP a b = some (n, g) ∧
      (n : ℚ) * 2 ^ g = (a : ℚ) / b := by
  have hbq : (0 : ℚ) < (b : ℚ) := by exact_mod_cast hb
  have h2ne : (2 : ℚ) ≠ 0 := by norm_num
  obtain ⟨hlo, hhi⟩ := ilog2Rat_bounds a b ha hb
  set e := ilog2Rat a b with he
  set g0 : Int := max eminSub (e - ((prec : Int) - 1)) with hg0
  have hg0emin : eminSub ≤ g0 := le_max_left _ _
  have hg0le : g0 ≤ er := by
    have h1 : (2 : ℚ) ^ e < 2 ^ ((prec : Int) + er) := by
      calc (2 : ℚ) ^ e ≤ (a : ℚ) / b := hlo
        _ = (nr : ℚ) * 2 ^ er := hvq
        _ < ((2 ^ prec : ℕ) : ℚ) * 2 ^ er := by
            apply mul_lt_mul_of_pos_right _ (zpow_pos2 er)
            exact_mod_cast hn
        _ = 2 ^ ((prec : Int) + er) := by
            push_cast
            rw [← zpow_natCast (2 : ℚ) prec, ← zpow_add₀ h2ne]
    have h2 : e < (prec : Int) + er := by
      by_contra hcon
      push_neg at hcon
      have := zpow_le_zpow_right₀ (by norm_num : (1 : ℚ) ≤ 2) hcon
      linarith
    omega
  set num := a * 2 ^ (-g0).toNat with hnum
  set den := b * 2 ^ g0.toNat with hden
  set q0 := nr * 2 ^ (er - g0).toNat with hq0
  have hdenpos : 0 < den := by rw [hden]; positivity
  have hab : (a : ℚ) = (nr : ℚ) * 2 ^ er * b := by
    rw [div_eq_iff (ne_of_gt hbq)] at hvq
    exact hvq
  have hkey : num = den * q0 := by
    have hQ : ((num : ℕ) : ℚ) = ((den * q0 : ℕ) : ℚ) := by
      have hexp : er + (((-g0).toNat : ℤ)) = ((g0.toNat : ℤ)) + (((er - g0).toNat : ℤ)) := by
        omega
      have hmain : (a : ℚ) * 2 ^ (((-g0).toNat : ℤ))
          = (b : ℚ) * 2 ^ ((g0.toNat : ℤ)) * ((nr : ℚ) * 2 ^ (((er - g0).toNat : ℤ))) := by
        calc (a : ℚ) * 2 ^ (((-g0).toNat : ℤ))
            = (b : ℚ) * (nr : ℚ) * (2 ^ er * 2 ^ (((-g0).toNat : ℤ))) := by
              rw [hab]
              ring
          _ = (b : ℚ) * (nr : ℚ) * 2 ^ (er + (((-g0).toNat : ℤ))) := by
              rw [← zpow_add₀ h2ne]
          _ = (b : ℚ) * (nr : ℚ) * 2 ^ (((g0.toNat : ℤ)) + (((er - g0).toNat : ℤ))) := by
              rw [hexp]
          _ = (b : ℚ) * (nr : ℚ) * (2 ^ ((g0.toNat : ℤ)) * 2 ^ (((er - g0).toNat : ℤ))) := by
              rw [← zpow_add₀ h2ne]
          _ = (b : ℚ) * 2 ^ ((g0.toNat : ℤ)) * ((nr : ℚ) * 2 ^ (((er - g0).toNat : ℤ))) := by
              ring
      rw [hnum, hden, hq0]
      push_cast
      rw [← zpow_natCast (2 : ℚ) (-g0).toNat, ← zpow_natCast (2 : ℚ) g0.toNat,
          ← zpow_natCast (2 : ℚ) (er - g0).toNat]
      linear_combination hmain
    exact_mod_cast hQ
  have hq0eq : roundHalfEvenDiv num den = q0 := by
    rw [hkey]
    exact roundHalfEvenDiv_exact den q0 hdenpos
  have hq0val : (q0 : ℚ) = ((a : ℚ) / b) * 2 ^ (-g0) := by
    rw [hq0, hvq]
    push_cast
    rw [← zpow_natCast (2 : ℚ) (er - g0).toNat, mul_assoc, ← zpow_add₀ h2ne]
    congr 2
    omega
  have hq0pos : 0 < q0 := by
    rw [hq0]
    positivity
  have hq0lt : q0 < 2 ^ prec := by
    have hq : ((q0 : ℕ) : ℚ) < ((2 ^ prec : ℕ) : ℚ) := by
      rw [hq0val]
      calc ((a : ℚ) / b) * 2 ^ (-g0) < 2 ^ (e + 1) * 2 ^ (-g0) :=
            mul_lt_mul_of_pos_right hhi (zpow_pos2 (-g0))
        _ = 2 ^ (e + 1 + -g0) := by rw [← zpow_add₀ h2ne]
        _ ≤ 2 ^ ((prec : Int)) := by
            apply zpow_le_zpow_right₀ (by norm_num)
            omega
        _ = ((2 ^ prec : ℕ) : ℚ) := by
            push_cast
            rw [← zpow_natCast (2 : ℚ) prec]
    exact_mod_cast hq
  have hvalq0 : (q0 : ℚ) * 2 ^ g0 = (a : ℚ) / b := by
    rw [hq0val, mul_assoc, ← zpow_add₀ h2ne]
    simp
  have hglt : g0 < emaxP := by
    have h1 : (2 : ℚ) ^ g0 ≤ (q0 : ℚ) * 2 ^ g0 := by
      have : (1 : ℚ) ≤ (q0 : ℚ) := by exact_mod_cast hq0pos
      calc (2 : ℚ) ^ g0 = 1 * 2 ^ g0 := (one_mul _).symm
        _ ≤ (q0 : ℚ) * 2 ^ g0 := mul_le_mul_of_nonneg_right this (zpow_pos2 g0).le
    have h2 : (2 : ℚ) ^ g0 < 2 ^ emaxP := by
      calc (2 : ℚ) ^ g0 ≤ (q0 : ℚ) * 2 ^ g0 := h1
        _ = (a : ℚ) / b := hvalq0
        _ < 2 ^ emaxP := hmax
    by_contra hcon
    push_neg at hcon
    have := zpow_le_zpow_right₀ (by norm_num : (1 : ℚ) ≤ 2) hcon
    linarith
  have hq0small : q0 < 2 ^ (emaxP - g0).toNat := by
    have hq : ((q0 : ℕ) : ℚ) < ((2 ^ (emaxP - g0).toNat : ℕ) : ℚ) := by
      have h1 : (q0 : ℚ) * 2 ^ g0 < 2 ^ emaxP := by rw [hvalq0]; exact hmax
      have h2 : (q0 : ℚ) < 2 ^ (emaxP - g0) := by
        have h3 := mul_lt_mul_of_pos_right h1 (zpow_pos2 (-g0))
        calc (q0 : ℚ) = (q0 : ℚ) * 2 ^ g0 * 2 ^ (-g0) := by
              rw [mul_assoc, ← zpow_add₀ h2ne]
              simp
          _ < 2 ^ emaxP * 2 ^ (-g0) := h3
          _ = 2 ^ (emaxP + -g0) := by rw [← zpow_add₀ h2ne]
          _ = 2 ^ (emaxP - g0) := by rw [sub_eq_add_neg]
      calc ((q0 : ℕ) : ℚ) < 2 ^ (emaxP - g0) := h2
        _ = ((2 ^ (emaxP - g0).toNat : ℕ) : ℚ) := by
            push_cast
            rw [← zpow_natCast (2 : ℚ) (emaxP - g0).toNat]
            congr 1
            omega
    exact_mod_cast hq
  refine ⟨q0, g0, ?_, hvalq0⟩
  show roundPosRat prec eminSub emaxP a b = some (q0, g0)
  simp only [roundPosRat]
  rw [← he, ← hg0, ← hnum, ← hden, hq0eq]
  have hne : ¬ (q0 = 2 ^ prec) := by omega
  rw [if_neg hne, if_neg hne, if_pos (le_of_lt hglt),
      decide_eq_false (by omega : ¬ (2 ^ (emaxP - g0).toNat ≤ q0))]
  simp

/-- Signed value of a finite binary64 from its mantissa-exponent pair. -/
theorem mantExp_val (d : F64) (hfin : d.biasedExp ≠ 2047) :
    d.val = (if d.sign then (-1 : ℚ) else 1) * d.mantExp.1 * 2 ^ d.mantExp.2 := by
  unfold F64.val F64.mantExp
  rw [if_neg hfin]
  by_cases h0 : d.biasedExp = 0
  · rw [if_pos h0, if_pos h0]
    dsimp
    ring
  · rw [if_neg h0, if_neg h0]
    dsimp
    ring

theorem two_zpow_lt_exp (i j : Int) (h : (2 : ℚ) ^ i < 2 ^ j) : i < j := by
  by_contra hcon
  push_neg at hcon
  have := zpow_le_zpow_right₀ (by norm_num : (1 : ℚ) ≤ 2) hcon
  linarith

theorem npow_cast_q (k : Nat) : ((2 ^ k : ℕ) : ℚ) = (2 : ℚ) ^ ((k : ℕ) : ℤ) := by
  push_cast
  rw [← zpow_natCast (2 : ℚ) k]

/-- pack32 under the bounds delivered by the rounding kernel: well-formed,
finite, and valued n times 2 to the g. -/
theorem pack32_spec (s : Bool) (n : Nat) (g : Int)
    (hn : n < 2 ^ 24) (hg : -149 ≤ g) (hnorm : 2 ^ 23 ≤ n ∨ g = -149)
    (hv : (n : ℚ) * 2 ^ g < 2 ^ (128 : ℤ)) :
    (pack32 s n g).WF ∧ (pack32 s n g).biasedExp ≠ 255 ∧
      (pack32 s n g).val = (if s then (-1 : ℚ) else 1) * n * 2 ^ g := by
  by_cases h0 : n = 0
  · subst h0
    unfold pack32 F32.zero
    rw [if_pos rfl]
    refine ⟨⟨by norm_num, by norm_num⟩, by norm_num, ?_⟩
    unfold F32.val
    norm_num
  by_cases hbig : 2 ^ 23 ≤ n
  · have hglt : g < 105 := by
      have h1 : (2 : ℚ) ^ (23 : ℤ) ≤ (n : ℚ) := by
        calc (2 : ℚ) ^ (23 : ℤ) = ((2 ^ 23 : ℕ) : ℚ) := (npow_cast_q 23).symm
          _ ≤ (n : ℚ) := by exact_mod_cast hbig
      have h2 : (2 : ℚ) ^ (23 + g) < 2 ^ (128 : ℤ) := by
        calc (2 : ℚ) ^ (23 + g) = 2 ^ (23 : ℤ) * 2 ^ g :=
              zpow_add₀ (by norm_num) 23 g
          _ ≤ (n : ℚ) * 2 ^ g := mul_le_mul_of_nonneg_right h1 (zpow_pos2 g).le
          _ < 2 ^ (128 : ℤ) := hv
      have := two_zpow_lt_exp _ _ h2
      omega
    unfold pack32
    rw [if_neg h0, if_pos hbig]
    refine ⟨⟨by dsimp only; omega, by dsimp only; omega⟩, by dsimp only; omega, ?_⟩
    simp only [F32.val]
    rw [if_neg (by omega : ¬ (g + 150).toNat = 255),
        if_neg (by omega : ¬ (g + 150).toNat = 0)]
    have h1 : ((2 ^ 23 + (n - 2 ^ 23) : ℕ) : ℚ) = (n : ℚ) := by
      have h : (2 ^ 23 + (n - 2 ^ 23) : ℕ) = n := by omega
      exact_mod_cast h
    rw [h1]
    have h2 : (((g + 150).toNat : ℕ) : ℤ) - 150 = g := by omega
    rw [h2]
    ring
  · have hgm : g = -149 := hnorm.resolve_left hbig
    subst hgm
    unfold pack32
    rw [if_neg h0, if_neg hbig]
    refine ⟨⟨by norm_num, by dsimp only; omega⟩, by norm_num, ?_⟩
    simp only [F32.val]
    rw [if_neg (by norm_num : ¬ (0 : ℕ) = 255), if_pos trivial]
    ring

/-- pack64Norm on a positive magnitude below 2^24 within the binary32
exponent range: finite, well-formed, and valued n times 2 to the g. -/
theorem pack64Norm_spec (s : Bool) (n : Nat) (g : Int)
    (hn0 : 0 < n) (hn : n < 2 ^ 24) (hg1 : -149 ≤ g) (hg2 : g ≤ 104) :
    (pack64Norm s n g).biasedExp ≠ 2047 ∧ (pack64Norm s n g).WF ∧
      (pack64Norm s n g).val = (if s then (-1 : ℚ) else 1) * n * 2 ^ g := by
  have hsz1 : 1 ≤ n.size := Nat.size_pos.mpr hn0
  have hsz2 : n.size ≤ 24 := Nat.size_le.mpr hn
  have hlow : 2 ^ (n.size - 1) ≤ n := size_lower n hn0
  have hhigh : n < 2 ^ n.size := Nat.lt_size_self n
  have hm1 : 2 ^ 52 ≤ n * 2 ^ (52 - (n.size - 1)) := by
    calc (2 : ℕ) ^ 52 = 2 ^ (n.size - 1) * 2 ^ (52 - (n.size - 1)) := by
          rw [← Nat.pow_add]
          congr 1
          omega
      _ ≤ n * 2 ^ (52 - (n.size - 1)) := Nat.mul_le_mul_right _ hlow
  have hm2 : n * 2 ^ (52 - (n.size - 1)) < 2 ^ 53 := by
    calc n * 2 ^ (52 - (n.size - 1)) < 2 ^ n.size * 2 ^ (52 - (n.size - 1)) :=
          (Nat.mul_lt_mul_right (Nat.pos_pow_of_pos _ (by norm_num))).mpr hhigh
      _ ≤ 2 ^ 53 := by
          rw [← Nat.pow_add]
          exact Nat.pow_le_pow_right (by norm_num) (by omega)
  have hbe : ((g - ((52 - (n.size - 1) : ℕ) : ℤ) + 1075).toNat : ℤ)
      = g - ((52 - (n.size - 1) : ℕ) : ℤ) + 1075 := by omega
  have hpk : pack64Norm s n g =
      ⟨s, (g - ((52 - (n.size - 1) : ℕ) : ℤ) + 1075).toNat,
        n * 2 ^ (52 - (n.size - 1)) - 2 ^ 52⟩ := by
    simp only [pack64Norm]
    rw [if_neg (by omega : ¬ n = 0)]
  rw [hpk]
  refine ⟨by dsimp only; omega, ⟨by dsimp only; omega, by dsimp only; omega⟩, ?_⟩
  simp only [F64.val]
  rw [if_neg (by omega : ¬ (g - ((52 - (n.size - 1) : ℕ) : ℤ) + 1075).toNat = 2047),
      if_neg (by omega : ¬ (g - ((52 - (n.size - 1) : ℕ) : ℤ) + 1075).toNat = 0)]
  have h1 : ((2 ^ 52 + (n * 2 ^ (52 - (n.size - 1)) - 2 ^ 52) : ℕ) : ℚ)
      = ((n * 2 ^ (52 - (n.size - 1)) : ℕ) : ℚ) := by
    have h : (2 ^ 52 + (n * 2 ^ (52 - (n.size - 1)) - 2 ^ 52) : ℕ)
        = n * 2 ^ (52 - (n.size - 1)) := by omega
    exact_mod_cast h
  rw [h1, hbe]
  have hmul : ((n * 2 ^ (52 - (n.size - 1)) : ℕ) : ℚ)
      * 2 ^ (g - ((52 - (n.size - 1) : ℕ) : ℤ) + 1075 - 1075) = (n : ℚ) * 2 ^ g := by
    push_cast
    rw [← zpow_natCast (2 : ℚ) (52 - (n.size - 1)), mul_assoc,
        ← zpow_add₀ (by norm_num : (2 : ℚ) ≠ 0)]
    congr 2
    omega
  rw [hmul]
  ring

/-- Widening a finite well-formed binary32 is exact. -/
theorem widen_spec (f : F32) (hwf : f.WF) (hfin : f.biasedExp ≠ 255) :
    f.widen.biasedExp ≠ 2047 ∧ f.widen.WF ∧ f.widen.val = f.val := by
  obtain ⟨hb, hf⟩ := hwf
  unfold F32.widen
  rw [if_neg hfin]
  by_cases h0 : f.biasedExp = 0
  · rw [if_pos h0]
    by_cases hfr : f.frac = 0
    · rw [hfr]
      refine ⟨by norm_num [pack64Norm, F64.zero], by norm_num [pack64Norm, F64.zero, F64.WF], ?_⟩
      simp [pack64Norm, F64.zero, F64.val, F32.val, h0, hfr]
    · have h := pack64Norm_spec f.sign f.frac (-149) (Nat.pos_of_ne_zero hfr)
        (by omega) (by norm_num) (by norm_num)
      refine ⟨h.1, h.2.1, ?_⟩
      rw [h.2.2]
      unfold F32.val
      rw [if_neg hfin, if_pos h0]
      ring
  · rw [if_neg h0]
    have h := pack64Norm_spec f.sign (2 ^ 23 + f.frac) ((f.biasedExp : ℤ) - 150)
      (by positivity) (by omega) (by omega) (by omega)
    refine ⟨h.1, h.2.1, ?_⟩
    rw [h.2.2]
    unfold F32.val
    rw [if_neg hfin, if_neg h0]
    push_cast
    ring

theorem int_scale_cast (s e m : Int) (hme : m ≤ e) :
    ((s * 2 ^ (e - m).toNat : ℤ) : ℚ) = (s : ℚ) * 2 ^ e * 2 ^ (-m) := by
  push_cast
  rw [← zpow_natCast (2 : ℚ) (e - m).toNat, mul_assoc, ← zpow_add₀ (by norm_num : (2 : ℚ) ≠ 0)]
  congr 2
  omega

/-- The signed dyadic mantissa of a finite binary64 carries its value. -/
theorem signed_mant_val (d : F64) (hfin : d.biasedExp ≠ 2047) :
    d.val = ((cond d.sign (-(d.mantExp.1 : Int)) (d.mantExp.1 : Int) : ℤ) : ℚ)
      * 2 ^ d.mantExp.2 := by
  rw [mantExp_val d hfin, Bool.cond_eq_if]
  by_cases hs : d.sign = true
  · rw [if_pos hs, if_pos hs]
    push_cast
    ring
  · rw [if_neg hs, if_neg hs]
    push_cast
    ring

/-- On finite binary64 patterns, the IEEE comparison decides value equality. -/
theorem f64Eq_iff_val (x y : F64) (hx : x.biasedExp ≠ 2047) (hy : y.biasedExp ≠ 2047) :
    f64Eq x y = true ↔ x.val = y.val := by
  have hxn : x.isNan = false := by simp [F64.isNan, hx]
  have hyn : y.isNan = false := by simp [F64.isNan, hy]
  have hxi : x.isInf = false := by simp [F64.isInf, hx]
  have hyi : y.isInf = false := by simp [F64.isInf, hy]
  have hfe : f64Eq x y = (cond x.sign (-(x.mantExp.1 : Int)) (x.mantExp.1 : Int)
        * 2 ^ (x.mantExp.2 - min x.mantExp.2 y.mantExp.2).toNat
      == cond y.sign (-(y.mantExp.1 : Int)) (y.mantExp.1 : Int)
        * 2 ^ (y.mantExp.2 - min x.mantExp.2 y.mantExp.2).toNat) := by
    unfold f64Eq
    rw [hxn, hyn, hxi, hyi]
    rfl
  rw [hfe, beq_iff_eq]
  have hvx := signed_mant_val x hx
  have hvy := signed_mant_val y hy
  set sa : Int := cond x.sign (-(x.mantExp.1 : Int)) (x.mantExp.1 : Int) with hsa
  set sb : Int := cond y.sign (-(y.mantExp.1 : Int)) (y.mantExp.1 : Int) with hsb
  set m := min x.mantExp.2 y.mantExp.2 with hm
  have hmx : m ≤ x.mantExp.2 := min_le_left _ _
  have hmy : m ≤ y.mantExp.2 := min_le_right _ _
  have hcast1 := int_scale_cast sa x.mantExp.2 m hmx
  have hcast2 := int_scale_cast sb y.mantExp.2 m hmy
  constructor
  · intro h
    have hq : ((sa * 2 ^ (x.mantExp.2 - m).toNat : ℤ) : ℚ)
        = ((sb * 2 ^ (y.mantExp.2 - m).toNat : ℤ) : ℚ) := by exact_mod_cast h
    rw [hcast1, hcast2] at hq
    have h2 := mul_right_cancel₀ (ne_of_gt (zpow_pos2 (-m))) hq
    rw [hvx, hvy, h2]
  · intro h
    rw [hvx, hvy] at h
    have hq : ((sa * 2 ^ (x.mantExp.2 - m).toNat : ℤ) : ℚ)
        = ((sb * 2 ^ (y.mantExp.2 - m).toNat : ℤ) : ℚ) := by
      rw [hcast1, hcast2, h]
    exact_mod_cast hq

/-- Every finite well-formed binary32 value is an integer below 2^24 times a
power of two with exponent between -149 and 104, of magnitude below 2^128. -/
theorem f32_val_rep (f : F32) (hwf : f.WF) (hfin : f.biasedExp ≠ 255) :
    ∃ nf : Nat, ∃ ef : Int, nf < 2 ^ 24 ∧ -149 ≤ ef ∧ ef ≤ 104 ∧
      f.val = (if f.sign then (-1 : ℚ) else 1) * nf * 2 ^ ef ∧
      (nf : ℚ) * 2 ^ ef < 2 ^ (128 : ℤ) := by
  obtain ⟨hb, hf⟩ := hwf
  by_cases h0 : f.biasedExp = 0
  · refine ⟨f.frac, -149, by omega, le_refl _, by norm_num, ?_, ?_⟩
    · unfold F32.val
      rw [if_neg hfin, if_pos h0]
      ring
    · calc (f.frac : ℚ) * 2 ^ (-149 : ℤ) < ((2 ^ 23 : ℕ) : ℚ) * 2 ^ (-149 : ℤ) := by
            apply mul_lt_mul_of_pos_right _ (zpow_pos2 _)
            exact_mod_cast hf
        _ = 2 ^ (23 + -149 : ℤ) := by
            rw [npow_cast_q, ← zpow_add₀ (by norm_num : (2 : ℚ) ≠ 0)]
            norm_num
        _ < 2 ^ (128 : ℤ) := by
            apply zpow_lt_zpow_right₀ (by norm_num)
            norm_num
  · refine ⟨2 ^ 23 + f.frac, (f.biasedExp : ℤ) - 150, by omega, by omega, by omega, ?_, ?_⟩
    · unfold F32.val
      rw [if_neg hfin, if_neg h0]
      push_cast
      ring
    · calc ((2 ^ 23 + f.frac : ℕ) : ℚ) * 2 ^ ((f.biasedExp : ℤ) - 150)
          < ((2 ^ 24 : ℕ) : ℚ) * 2 ^ ((f.biasedExp : ℤ) - 150) := by
            apply mul_lt_mul_of_pos_right _ (zpow_pos2 _)
            exact_mod_cast (by omega : 2 ^ 23 + f.frac < 2 ^ 24)
        _ = 2 ^ (24 + ((f.biasedExp : ℤ) - 150)) := by
            rw [npow_cast_q, ← zpow_add₀ (by norm_num : (2 : ℚ) ≠ 0)]
            norm_num
        _ ≤ 2 ^ (128 : ℤ) := by
            apply zpow_le_zpow_right₀ (by norm_num)
            omega

/-- The double-to-float cast always produces a well-formed pattern. -/
theorem castToF32_wf (d : F64) : d.castToF32.WF := by
  unfold F64.castToF32
  by_cases hfin : d.biasedExp = 2047
  · rw [if_pos hfin]
    by_cases hfr : d.frac = 0
    · rw [if_pos hfr]
      exact ⟨by norm_num [F32.infty], by norm_num [F32.infty]⟩
    · rw [if_neg hfr]
      exact ⟨by norm_num [F32.nan], by norm_num [F32.nan]⟩
  · rw [if_neg hfin]
    dsimp only
    by_cases hm : d.mantExp.1 = 0
    · rw [if_pos hm]
      exact ⟨by norm_num [F32.zero], by norm_num [F32.zero]⟩
    · rw [if_neg hm]
      cases hr : roundPosRat 24 (-149) 128 (d.mantExp.1 * 2 ^ d.mantExp.2.toNat)
          (2 ^ (-d.mantExp.2).toNat) with
      | none =>
        exact ⟨by norm_num [F32.infty], by norm_num [F32.infty]⟩
      | some ng =>
        have hab : 0 < d.mantExp.1 * 2 ^ d.mantExp.2.toNat := by
          have := Nat.pos_of_ne_zero hm
          positivity
        have hbb : 0 < 2 ^ (-d.mantExp.2).toNat := by positivity
        have hr2 : roundPosRat 24 (-149) 128 (d.mantExp.1 * 2 ^ d.mantExp.2.toNat)
            (2 ^ (-d.mantExp.2).toNat) = some (ng.1, ng.2) := by
          rw [hr]
        obtain ⟨h1, h2, h3, h4⟩ :=
          roundPosRat_bounds 24 (-149) 128 _ _ ng.1 ng.2 (by norm_num) hab hbb hr2
        exact (pack32_spec d.sign ng.1 ng.2 h1 h2 h3 h4).1

/-- When the finite input is exactly representable with 24 bits in the
binary32 exponent range, the cast is exact: finite output of equal value. -/
theorem castToF32_exact (d : F64) (hfin : d.biasedExp ≠ 2047) (hm : d.mantExp.1 ≠ 0)
    (nf : Nat) (ef : Int) (hnf : nf < 2 ^ 24) (hef : -149 ≤ ef)
    (hrep : (d.mantExp.1 : ℚ) * 2 ^ d.mantExp.2 = (nf : ℚ) * 2 ^ ef)
    (hlt : (d.mantExp.1 : ℚ) * 2 ^ d.mantExp.2 < 2 ^ (128 : ℤ)) :
    d.castToF32.biasedExp ≠ 255 ∧ d.castToF32.val = d.val := by
  have hmpos : 0 < d.mantExp.1 := Nat.pos_of_ne_zero hm
  have hdiv : ((d.mantExp.1 * 2 ^ d.mantExp.2.toNat : ℕ) : ℚ)
      / ((2 ^ (-d.mantExp.2).toNat : ℕ) : ℚ) = (d.mantExp.1 : ℚ) * 2 ^ d.mantExp.2 :=
    dyadic_div d.mantExp.1 d.mantExp.2
  have hnf0 : 0 < nf := by
    rcases Nat.eq_zero_or_pos nf with h | h
    · exfalso
      have hpos : (0 : ℚ) < (d.mantExp.1 : ℚ) * 2 ^ d.mantExp.2 := by positivity
      rw [hrep, h] at hpos
      simp at hpos
    · exact h
  obtain ⟨n, g, hsome, hval⟩ := roundPosRat_exact 24 (-149) 128
    (d.mantExp.1 * 2 ^ d.mantExp.2.toNat) (2 ^ (-d.mantExp.2).toNat) nf ef
    (by norm_num) (by positivity) (by positivity) hnf0
    (by rw [hdiv, hrep]) hnf hef (by rw [hdiv]; exact hlt)
  obtain ⟨h1, h2, h3, h4⟩ := roundPosRat_bounds 24 (-149) 128 _ _ n g
    (by norm_num) (by positivity) (by positivity) hsome
  have hpk := pack32_spec d.sign n g h1 h2 h3 h4
  have hc : d.castToF32 = pack32 d.sign n g := by
    unfold F64.castToF32
    rw [if_neg hfin]
    dsimp only
    rw [if_neg hm, hsome]
  rw [hc]
  refine ⟨hpk.2.1, ?_⟩
  rw [hpk.2.2, mantExp_val d hfin]
  have hfinal : (n : ℚ) * 2 ^ g = (d.mantExp.1 : ℚ) * 2 ^ d.mantExp.2 := by
    rw [hval, hdiv]
  calc (if d.sign = true then (-1 : ℚ) else 1) * n * 2 ^ g
      = (if d.sign = true then (-1 : ℚ) else 1) * ((n : ℚ) * 2 ^ g) := by ring
    _ = (if d.sign = true then (-1 : ℚ) else 1)
        * ((d.mantExp.1 : ℚ) * 2 ^ d.mantExp.2) := by rw [hfinal]
    _ = (if d.sign = true then (-1 : ℚ) else 1) * d.mantExp.1 * 2 ^ d.mantExp.2 := by ring

/-- The narrowing test in visit_double succeeds exactly when some well-formed
binary32 widens to a double comparing equal to the input. -/
theorem castToF32_roundtrip (d : F64) (hwf : d.WF) :
    (f64Eq d.castToF32.widen d = true ↔ ∃ f : F32, f.WF ∧ f64Eq f.widen d = true) := by
  constructor
  · intro h
    exact ⟨d.castToF32, castToF32_wf d, h⟩
  · rintro ⟨f, hfwf, heq⟩
    by_cases hfin : d.biasedExp = 2047
    · by_cases hfr : d.frac = 0
      · have hc : d.castToF32 = F32.infty d.sign := by
          unfold F64.castToF32
          rw [if_pos hfin, if_pos hfr]
        have hw : (F32.infty d.sign).widen = F64.infty d.sign := by
          simp [F32.widen, F32.infty, F64.infty]
        rw [hc, hw]
        simp [f64Eq, F64.isNan, F64.isInf, F64.infty, hfin, hfr]
      · exfalso
        have hno : f64Eq f.widen d = false := by
          simp [f64Eq, F64.isNan, hfin, hfr]
        rw [hno] at heq
        simp at heq
    · by_cases hffin : f.biasedExp = 255
      · exfalso
        have hno : f64Eq f.widen d = false := by
          unfold F32.widen
          rw [if_pos hffin]
          by_cases hfr : f.frac = 0
          · rw [if_pos hfr]
            simp [f64Eq, F64.isNan, F64.isInf, F64.infty, hfin]
          · rw [if_neg hfr]
            simp [f64Eq, F64.isNan, F64.nan]
        rw [hno] at heq
        simp at heq
      · obtain ⟨hwfin, hwWF, hwval⟩ := widen_spec f hfwf hffin
        have hdval : f.widen.val = d.val := (f64Eq_iff_val f.widen d hwfin hfin).mp heq
        obtain ⟨nf, ef, hnf, hef1, hef2, hfv, hfb⟩ := f32_val_rep f hfwf hffin
        have hdv : d.val = (if f.sign = true then (-1 : ℚ) else 1) * nf * 2 ^ ef := by
          rw [← hdval, hwval, hfv]
        by_cases hm : d.mantExp.1 = 0
        · have hdbe : d.biasedExp = 0 := by
            by_contra hbe
            have h2 : d.mantExp.1 = 2 ^ 52 + d.frac := by
              simp [F64.mantExp, hbe]
            rw [h2] at hm
            omega
          have hdfr : d.frac = 0 := by
            have h2 : d.mantExp.1 = d.frac := by
              simp [F64.mantExp, hdbe]
            omega
          have hc : d.castToF32 = F32.zero d.sign := by
            unfold F64.castToF32
            rw [if_neg hfin]
            dsimp only
            rw [if_pos hm]
          have hw : (F32.zero d.sign).widen = F64.zero d.sign := by
            simp [F32.widen, F32.zero, pack64Norm, F64.zero]
          rw [hc, hw]
          simp [f64Eq, F64.isNan, F64.isInf, F64.zero, F64.mantExp, hfin, hdbe, hdfr]
        · have hmpos : 0 < d.mantExp.1 := Nat.pos_of_ne_zero hm
          have hdval2 := mantExp_val d hfin
          have hMpos : (0 : ℚ) < (d.mantExp.1 : ℚ) * 2 ^ d.mantExp.2 := by positivity
          have hNnn : (0 : ℚ) ≤ (nf : ℚ) * 2 ^ ef := by positivity
          have hM : (d.mantExp.1 : ℚ) * 2 ^ d.mantExp.2 = (nf : ℚ) * 2 ^ ef := by
            rw [hdval2] at hdv
            by_cases hs : d.sign = true <;> by_cases ht : f.sign = true
            · simp only [if_pos hs, if_pos ht] at hdv
              linarith
            · simp only [if_pos hs, if_neg ht] at hdv
              linarith
            · simp only [if_neg hs, if_pos ht] at hdv
              linarith
            · simp only [if_neg hs, if_neg ht] at hdv
              linarith
          have hMlt : (d.mantExp.1 : ℚ) * 2 ^ d.mantExp.2 < 2 ^ (128 : ℤ) := by
            rw [hM]
            exact hfb
          obtain ⟨hcfin, hcval⟩ := castToF32_exact d hfin hm nf ef hnf hef1 hM hMlt
          obtain ⟨hwfin2, hwWF2, hwval2⟩ := widen_spec d.castToF32 (castToF32_wf d) hcfin
          refine (f64Eq_iff_val d.castToF32.widen d hwfin2 hfin).mpr ?_
          rw [hwval2, hcval]

/-- C9: for a double event with no epoch tag, the CBOR encoder writes the
initial byte 0xfa followed by the 4-byte big-endian binary32 exactly when the
double value is exactly representable as a binary32 — some well-formed
binary32 pattern converts back to an equal double — and otherwise writes
0xfb followed by the 8-byte big-endian binary64. -/
theorem double_float32_narrowing (st : Cbor) (d : F64) (hwf : d.WF) :
    ((∃ f : F32, f.WF ∧ f64Eq f.widen d = true) →
      (st.visitDouble d STag.none).sink = st.sink ++ 0xfa :: d.castToF32.bytes ∧
        d.castToF32.bytes.length = 4) ∧
    ((¬ ∃ f : F32, f.WF ∧ f64Eq f.widen d = true) →
      (st.visitDouble d STag.none).sink = st.sink ++ 0xfb :: d.bytes ∧
        d.bytes.length = 8) := by
  have hiff := castToF32_roundtrip d hwf
  constructor
  · intro hex
    have hcond : f64Eq d.castToF32.widen d = true := hiff.mpr hex
    constructor
    · unfold Cbor.visitDouble
      dsimp only
      rw [if_pos hcond, (endValue_frame _).1]
      simp [Cbor.push, Cbor.pushList]
    · exact bytesBE_length 4 _
  · intro hnex
    have hneg : ¬ (f64Eq d.castToF32.widen d = true) := fun h => hnex (hiff.mp h)
    constructor
    · unfold Cbor.visitDouble
      dsimp only
      rw [if_neg hneg, (endValue_frame _).1]
      simp [Cbor.push, Cbor.pushList]
    · exact bytesBE_length 8 _

theorem double_float32_narrowing_witness :
    F64.WF ⟨false, 1023, 2 ^ 51⟩ ∧
      (((∃ f : F32, f.WF ∧ f64Eq f.widen (⟨false, 1023, 2 ^ 51⟩ : F64) = true) →
        ((cborMk {}).visitDouble ⟨false, 1023, 2 ^ 51⟩ STag.none).sink
          = (cborMk {}).sink ++ 0xfa :: (F64.castToF32 ⟨false, 1023, 2 ^ 51⟩).bytes ∧
          (F64.castToF32 ⟨false, 1023, 2 ^ 51⟩).bytes.length = 4) ∧
      ((¬ ∃ f : F32, f.WF ∧ f64Eq f.widen (⟨false, 1023, 2 ^ 51⟩ : F64) = true) →
        ((cborMk {}).visitDouble ⟨false, 1023, 2 ^ 51⟩ STag.none).sink
          = (cborMk {}).sink ++ 0xfb :: (⟨false, 1023, 2 ^ 51⟩ : F64).bytes ∧
          (⟨false, 1023, 2 ^ 51⟩ : F64).bytes.length = 8)) :=
  ⟨by decide, double_float32_narrowing (cborMk {}) ⟨false, 1023, 2 ^ 51⟩ (by decide)⟩

end Jsoncons
